import Mathlib

set_option maxHeartbeats 1000000

/-!
Shallow embedding of the chain-to-store synchronizer (the indexer process):
the functions fetchGraphQL, syncProfiles, syncDonations, syncProducts,
performSync and the notification/polling listener, together with the
PocketBase collections they read and write.  Network and store failures are
supplied by explicit oracles so that every failure branch of the source is
representable.
-/

namespace LineraIndexer

/-- Envelope of a GraphQL response: an optional data payload (absent both for
a missing and for a null `data` field) and a list of application-level
errors (empty when the `errors` field is absent). -/
structure GQLResult (α : Type) where
  data? : Option α
  errors : List String
deriving DecidableEq

/-- Outcome of one HTTP fetch attempt against the node: either the fetch
throws (network exception), or it yields an HTTP status plus a parsed body. -/
inductive FetchOutcome (α : Type) where
  | throws (msg : String)
  | http (status : Nat) (body : GQLResult α)
deriving DecidableEq

/-- JS `response.ok`: status in [200, 300). -/
def httpOk (status : Nat) : Bool := 200 ≤ status && status < 300

/-- Embedding of `fetchGraphQL` (src/unnamed/part_009 lines 32-55): a thrown
exception or a non-success status is turned into a body with no data and a
one-element error list; otherwise the parsed body is returned unchanged —
application-level errors are only logged, never stripped and never turned
into an absent data payload. -/
def fetchGraphQL {α : Type} (o : FetchOutcome α) : GQLResult α :=
  match o with
  | .throws msg => ⟨none, [msg]⟩
  | .http status body =>
      if httpOk status then body else ⟨none, ["HTTP Error " ++ toString status]⟩

/-- Decimal digit test. -/
def isDigitChar (c : Char) : Bool := '0' ≤ c && c ≤ '9'

/-- Numeric value of a digit character. -/
def digVal (c : Char) : Nat := c.toNat - '0'.toNat

/-- Value of a digit list read left to right in base 10. -/
def natOfDigits (ds : List Char) : Nat := ds.foldl (fun a c => a * 10 + digVal c) 0

/-- Model of the JS `parseFloat` builtin on plain decimal literals: skip
leading whitespace, optional sign, digits, optional fraction; the longest
valid numeric prefix is parsed and trailing junk ignored; `none` models NaN
(no digit found).  IEEE doubles are modelled as exact rationals; exponent
and Infinity forms, which never occur in ledger amount or price strings,
are out of scope. -/
def parseFloat? (s : String) : Option ℚ :=
  let cs := s.data.dropWhile (fun c => c = ' ' || c = '\t' || c = '\n' || c = '\r')
  let sgn : ℚ := if cs.head? = some '-' then -1 else 1
  let cs1 := if cs.head? = some '-' || cs.head? = some '+' then cs.tail else cs
  let intPart := cs1.takeWhile isDigitChar
  let cs2 := cs1.dropWhile isDigitChar
  let fracPart := if cs2.head? = some '.' then cs2.tail.takeWhile isDigitChar else []
  if intPart.isEmpty && fracPart.isEmpty then none
  else
    some (sgn * ((natOfDigits intPart : ℚ) +
      (natOfDigits fracPart : ℚ) / ((10 : ℚ) ^ fracPart.length)))

/-- The regex replace `.replace(/\.$/, '')` of line 123: remove one trailing
dot when present. -/
def stripTrailingDot (s : String) : String :=
  if s.data.getLast? = some '.' then ⟨s.data.dropLast⟩ else s

/-- Lines 123-124: `parseFloat(String(d.amount).replace(/\.$/, '')) || 0` —
strip one trailing dot, parse as float, default 0 when NaN. -/
def parseAmount (s : String) : ℚ := (parseFloat? (stripTrailingDot s)).getD 0

/-- Oracle deciding which store operations fail (throw) during a pass; the
source catches these per record or per entity type.  Keys are the external
identifiers of the record being processed (localId for deletes). -/
structure StoreOracle where
  profileLookupFails : String → Bool
  profileUpdateFails : String → Bool
  profileCreateFails : String → Bool
  donationListFails : String → Bool
  donationCreateFails : String → Bool
  productListFails : String → Bool
  productUpdateFails : String → Bool
  productCreateFails : String → Bool
  productDeleteFails : Nat → Bool
  productsListAllFails : Bool

/-- The oracle under which every store operation succeeds. -/
def noFail : StoreOracle :=
  ⟨fun _ => false, fun _ => false, fun _ => false, fun _ => false, fun _ => false,
   fun _ => false, fun _ => false, fun _ => false, fun _ => false, false⟩

/-! ## Profiles -/

/-- One entry of the `socials` list of a profile. -/
structure Social where
  name : String
  url : String
deriving DecidableEq

/-- A profile as returned by the `allProfilesView` ledger query. -/
structure LedgerProfile where
  owner : String
  chainId : String
  name : String
  bio : String
  socials : List Social
deriving DecidableEq

/-- A record of the PocketBase `profiles` collection. -/
structure PBProfile where
  localId : Nat
  owner : String
  chain_id : String
  name : String
  bio : String
  socials : List Social
deriving DecidableEq

/-- The `profiles` collection plus the store counter from which fresh local
record ids are drawn. -/
structure ProfilesStore where
  records : List PBProfile
  nextId : Nat
deriving DecidableEq

/-- `getFirstListItem` with filter owner=: first record with that owner. -/
def profFind (st : ProfilesStore) (owner : String) : Option PBProfile :=
  st.records.find? (fun r => r.owner = owner)

/-- `update(existing.id, {chain_id, name, bio, socials})`: rewrite those four
fields of every record with the given local id. -/
def profUpdate (st : ProfilesStore) (i : Nat) (p : LedgerProfile) : ProfilesStore :=
  { st with records := st.records.map (fun r =>
      if r.localId = i then
        { r with chain_id := p.chainId, name := p.name, bio := p.bio, socials := p.socials }
      else r) }

/-- `create({owner, chain_id, name, bio, socials})`: append a fresh record. -/
def profCreate (st : ProfilesStore) (p : LedgerProfile) : ProfilesStore :=
  { records := st.records ++ [⟨st.nextId, p.owner, p.chainId, p.name, p.bio, p.socials⟩]
    nextId := st.nextId + 1 }

/-- The per-record loop of `syncProfiles` (lines 77-99).  A failing lookup or
update raises inside the per-record try, is caught, fails the 404 test and
silently skips the record; a missing record raises 404 and is created; a
failing create raises inside the catch block, escapes to the outer catch of
the function and aborts the remaining records of this pass. -/
def syncProfilesLoop (o : StoreOracle) : List LedgerProfile → ProfilesStore → ProfilesStore
  | [], st => st
  | p :: rest, st =>
    if o.profileLookupFails p.owner then
      syncProfilesLoop o rest st
    else
      match profFind st p.owner with
      | some existing =>
        if o.profileUpdateFails p.owner then syncProfilesLoop o rest st
        else syncProfilesLoop o rest (profUpdate st existing.localId p)
      | none =>
        if o.profileCreateFails p.owner then st
        else syncProfilesLoop o rest (profCreate st p)

/-- Embedding of `syncProfiles` (lines 57-103): fetch, skip the pass when no
data payload came back, otherwise run the per-record loop over the fetched
list (a null `allProfilesView` field counts as the empty list). -/
def syncProfiles (f : FetchOutcome (Option (List LedgerProfile)))
    (o : StoreOracle) (st : ProfilesStore) : ProfilesStore :=
  match (fetchGraphQL f).data? with
  | none => st
  | some dl => syncProfilesLoop o (dl.getD []) st

/-! ## Donations -/

/-- A donation as returned by the `allDonations` ledger query; the amount is
the raw ledger string. -/
structure LedgerDonation where
  id : String
  «from» : String
  «to» : String
  amount : String
  message : String
  timestamp : String
  sourceChainId : String
deriving DecidableEq

/-- A record of the PocketBase `donations` collection; note that the ledger
donation id is not stored at all. -/
structure PBDonation where
  localId : Nat
  from_owner : String
  to_owner : String
  amount : ℚ
  message : String
  timestamp : String
  source_chain_id : String
deriving DecidableEq

/-- The `donations` collection plus its fresh-id counter. -/
structure DonationsStore where
  records : List PBDonation
  nextId : Nat
deriving DecidableEq

/-- The existence filter of line 127: from_owner, to_owner, timestamp and
parsed amount all equal. -/
def donMatches (d : LedgerDonation) (amt : ℚ) (r : PBDonation) : Bool :=
  r.from_owner = d.«from» && r.to_owner = d.«to» && r.timestamp = d.timestamp && r.amount = amt

/-- `create({from_owner, to_owner, amount, message, timestamp,
source_chain_id})`: append a fresh record. -/
def donCreate (st : DonationsStore) (d : LedgerDonation) (amt : ℚ) : DonationsStore :=
  { records := st.records ++
      [⟨st.nextId, d.«from», d.«to», amt, d.message, d.timestamp, d.sourceChainId⟩]
    nextId := st.nextId + 1 }

/-- The per-record loop of `syncDonations` (lines 121-144): the whole record
body sits in a per-record try/catch, so a failing list query or create only
skips that record; a record is created only when no record matches its
(from, to, timestamp, amount) quadruple; nothing is ever updated or
deleted. -/
def syncDonationsLoop (o : StoreOracle) : List LedgerDonation → DonationsStore → DonationsStore
  | [], st => st
  | d :: rest, st =>
    if o.donationListFails d.id then syncDonationsLoop o rest st
    else
      let amt := parseAmount d.amount
      if st.records.any (donMatches d amt) then syncDonationsLoop o rest st
      else if o.donationCreateFails d.id then syncDonationsLoop o rest st
      else syncDonationsLoop o rest (donCreate st d amt)

/-- Embedding of `syncDonations` (lines 105-148). -/
def syncDonations (f : FetchOutcome (Option (List LedgerDonation)))
    (o : StoreOracle) (st : DonationsStore) : DonationsStore :=
  match (fetchGraphQL f).data? with
  | none => st
  | some dl => syncDonationsLoop o (dl.getD []) st

/-! ## Products -/

/-- One key/value entry of the public data of a product. -/
structure KV where
  key : String
  value : String
deriving DecidableEq

/-- One entry of the order form of a product. -/
structure OrderField where
  key : String
  label : String
  fieldType : String
  required : Bool
deriving DecidableEq

/-- A product as returned by the `allProducts` ledger query. -/
structure LedgerProduct where
  id : String
  author : String
  authorChainId : String
  publicData : List KV
  price : String
  orderForm : Option (List OrderField)
deriving DecidableEq

/-- Line 170: `p.publicData.find(k => k.key === key)?.value || ''`. -/
def getVal (p : LedgerProduct) (k : String) : String :=
  ((p.publicData.find? (fun kv => kv.key = k)).map KV.value).getD ""

/-- A record of the PocketBase `products` collection; `created_at` is the
store creation stamp used by the `-created_at` sort, `image_preview` the
stored preview file (absent when never enriched). -/
structure PBProduct where
  localId : Nat
  created_at : Nat
  product_id : String
  owner : String
  chain_id : String
  name : String
  description : String
  price : Option ℚ
  file_name : String
  image_preview_hash : String
  file_hash : String
  «type» : String
  category : String
  order_form : List OrderField
  image_preview : Option (List Nat)
deriving DecidableEq

/-- The `products` collection plus its fresh-id counter (which also serves
as the monotone creation stamp). -/
structure ProductsStore where
  records : List PBProduct
  nextId : Nat
deriving DecidableEq

/-- The FormData assembled in lines 198-210: every scalar field is always
appended; the preview file is appended only when fresh bytes were fetched. -/
structure ProductFields where
  product_id : String
  owner : String
  chain_id : String
  name : String
  description : String
  price : Option ℚ
  file_name : String
  image_preview_hash : String
  file_hash : String
  «type» : String
  category : String
  order_form : List OrderField
  image_preview : Option (List Nat)
deriving DecidableEq

/-- PocketBase update semantics for the assembled FormData: every appended
field is overwritten; the preview file is kept unchanged when the FormData
carries none. -/
def applyFields (r : PBProduct) (f : ProductFields) : PBProduct :=
  { r with
    product_id := f.product_id
    owner := f.owner
    chain_id := f.chain_id
    name := f.name
    description := f.description
    price := f.price
    file_name := f.file_name
    image_preview_hash := f.image_preview_hash
    file_hash := f.file_hash
    «type» := f.«type»
    category := f.category
    order_form := f.order_form
    image_preview := match f.image_preview with
      | some b => some b
      | none => r.image_preview }

/-- `create(data)`: append a fresh record with the next id as local id and
creation stamp. -/
def prodCreate (st : ProductsStore) (f : ProductFields) : ProductsStore :=
  { records := st.records ++ [{
      localId := st.nextId
      created_at := st.nextId
      product_id := f.product_id
      owner := f.owner
      chain_id := f.chain_id
      name := f.name
      description := f.description
      price := f.price
      file_name := f.file_name
      image_preview_hash := f.image_preview_hash
      file_hash := f.file_hash
      «type» := f.«type»
      category := f.category
      order_form := f.order_form
      image_preview := f.image_preview }]
    nextId := st.nextId + 1 }

/-- `update(id, data)`: rewrite the appended fields of every record with
that local id. -/
def prodUpdate (st : ProductsStore) (i : Nat) (f : ProductFields) : ProductsStore :=
  { st with records := st.records.map (fun r => if r.localId = i then applyFields r f else r) }

/-- `delete(id)`: drop every record with that local id. -/
def prodDelete (st : ProductsStore) (i : Nat) : ProductsStore :=
  { st with records := st.records.filter (fun r => r.localId ≠ i) }

/-- Ordering used by `sort: -created_at`: newest first. -/
def createdDesc (a b : PBProduct) : Prop := b.created_at ≤ a.created_at

instance : DecidableRel createdDesc := fun a b => Nat.decLe b.created_at a.created_at

instance : IsTotal PBProduct createdDesc := ⟨fun a b => le_total b.created_at a.created_at⟩

instance : IsTrans PBProduct createdDesc := ⟨fun _ _ _ h1 h2 => le_trans h2 h1⟩

/-- The `sort: -created_at` of getFullList: descending creation stamp. -/
def sortByCreatedDesc (l : List PBProduct) : List PBProduct :=
  l.insertionSort createdDesc

/-- Line 221-223: `blobRes.data?.dataBlob` followed by the
`bytes && bytes.length > 0` guard — the usable bytes of a blob response. -/
def dataBlobBytes (res : GQLResult (Option (List Nat))) : Option (List Nat) :=
  match res.data? with
  | some (some bytes) => if bytes.length > 0 then some bytes else none
  | _ => none

/-- The FormData content for one ledger product given the preview bytes
fetched for it (lines 169-210). -/
def productFieldsOf (p : LedgerProduct) (img : Option (List Nat)) : ProductFields :=
  { product_id := p.id
    owner := p.author
    chain_id := p.authorChainId
    name := getVal p "name"
    description := getVal p "description"
    price := parseFloat? (if p.price = "" then "0" else p.price)
    file_name := getVal p "name"
    image_preview_hash := getVal p "image_preview_hash"
    file_hash := getVal p "data_blob_hash"
    «type» := getVal p "type"
    category := getVal p "category"
    order_form := p.orderForm.getD []
    image_preview := img }

/-- The dedup deletes of lines 191-196: delete each surplus duplicate, each
delete wrapped in its own try/catch so a failure is ignored. -/
def dedupDeletes (o : StoreOracle) : List PBProduct → ProductsStore → ProductsStore
  | [], st => st
  | r :: rest, st =>
      dedupDeletes o rest (if o.productDeleteFails r.localId then st else prodDelete st r.localId)

/-- The getFullList call of lines 183-186: the records with the given
product id, sorted newest first. -/
def dupsOf (st : ProductsStore) (pid : String) : List PBProduct :=
  sortByCreatedDesc (st.records.filter (fun r => r.product_id = pid))

/-- The dedup deletes of lines 191-196 applied to the store: when more than
one record shares the product id, every one except the newest is deleted. -/
def dedupStep (o : StoreOracle) (st : ProductsStore) (pid : String) : ProductsStore :=
  if (dupsOf st pid).length > 1 then dedupDeletes o ((dupsOf st pid).drop 1) st else st

/-- The image sync decision of lines 212-228: fetch preview bytes when the
product carries an image hash and the existing record either has no stored
preview or stores a differing hash. -/
def imageStep (benv : String → FetchOutcome (Option (List Nat)))
    (existing : Option PBProduct) (imageHash : String) : Option (List Nat) :=
  if imageHash ≠ "" then
    let hasImage := match existing with
      | some e => e.image_preview.isSome
      | none => false
    let hashDiff := match existing with
      | some e => e.image_preview_hash != imageHash
      | none => false
    if !hasImage || hashDiff then dataBlobBytes (fetchGraphQL (benv imageHash)) else none
  else none

/-- Processing of one fetched product (lines 167-238), all inside a
per-record try/catch: list the duplicates sorted by descending creation
stamp (a failure here skips the record), keep the head as the existing
record, delete the surplus, fetch preview bytes per the image sync
decision, then update the existing record or create a fresh one (a
failure of the update or create skips the record, the dedup deletes
already applied being kept). -/
def processProduct (benv : String → FetchOutcome (Option (List Nat)))
    (o : StoreOracle) (st : ProductsStore) (p : LedgerProduct) : ProductsStore :=
  if o.productListFails p.id then st
  else
    let duplicates := dupsOf st p.id
    let existing := duplicates.head?
    let st1 := dedupStep o st p.id
    let img := imageStep benv existing (getVal p "image_preview_hash")
    let fields := productFieldsOf p img
    match existing with
    | some e => if o.productUpdateFails p.id then st1 else prodUpdate st1 e.localId fields
    | none => if o.productCreateFails p.id then st1 else prodCreate st1 fields

/-- The orphan cleanup loop of lines 246-255 over the snapshot returned by
getFullList: delete every record whose product id is not in the fetched id
set, each delete wrapped in its own try/catch. -/
def cleanupLoop (o : StoreOracle) (chainIds : List String) :
    List PBProduct → ProductsStore → ProductsStore
  | [], st => st
  | r :: rest, st =>
    if chainIds.contains r.product_id then cleanupLoop o chainIds rest st
    else if o.productDeleteFails r.localId then cleanupLoop o chainIds rest st
    else cleanupLoop o chainIds rest (prodDelete st r.localId)

/-- Embedding of `syncProducts` (lines 150-259): fetch, skip the pass when
no data payload came back; otherwise process each fetched product in order
and then run the orphan cleanup against the fetched id set — a failing
snapshot list aborts the cleanup through the outer catch but keeps the
upserts already applied. -/
def syncProducts (f : FetchOutcome (Option (List LedgerProduct)))
    (benv : String → FetchOutcome (Option (List Nat)))
    (o : StoreOracle) (st : ProductsStore) : ProductsStore :=
  match (fetchGraphQL f).data? with
  | none => st
  | some dl =>
    let products := dl.getD []
    let st1 := products.foldl (processProduct benv o) st
    if o.productsListAllFails then st1
    else cleanupLoop o (products.map (fun p => p.id)) (sortByCreatedDesc st1.records) st1

/-! ## Sync coordinator and listener -/

/-- The two module-level flags of lines 29-30 plus a counter of the pass
bodies actually entered. -/
structure CoordState where
  isSyncing : Bool
  pendingSync : Bool
  started : Nat
deriving DecidableEq

/-- The entry guard of `performSync` (lines 261-268): a call during a
running pass only sets the pending flag; otherwise the lock is taken and a
pass body starts. -/
def performSyncEnter (s : CoordState) : CoordState :=
  if s.isSyncing then { s with pendingSync := true }
  else { s with isSyncing := true, started := s.started + 1 }

/-- The finally block of `performSync` (lines 277-283): release the lock,
and when the pending flag is set, clear it and invoke `performSync` once
more (which, the lock being free, starts exactly one further pass). -/
def performSyncExit (s : CoordState) : CoordState :=
  let s1 := { s with isSyncing := false }
  if s1.pendingSync then performSyncEnter { s1 with pendingSync := false } else s1

/-- Listener state: whether the polling interval of `startPolling` is
registered, its period in milliseconds, and how many pass triggers were
issued. -/
structure ListenerState where
  polling : Bool
  pollIntervalMs : Nat
  triggers : Nat
deriving DecidableEq

/-- The events the listener of lines 286-321 reacts to: the websocket
connected callback, a delivered notification, a subscription error, the
subscription complete callback, and a tick of the polling interval. -/
inductive ListenerEvent where
  | connected
  | notify
  | subError
  | subComplete
  | pollTick
deriving DecidableEq

/-- Embedding of the listener callbacks: `connected` and `complete` only
log; `next` triggers a pass; `error` calls `startPolling`, which registers
a 10000 ms interval; an interval tick triggers a pass.  No branch ever
clears the interval or resubscribes. -/
def listenerStep (s : ListenerState) : ListenerEvent → ListenerState
  | .connected => s
  | .notify => { s with triggers := s.triggers + 1 }
  | .subError => { s with polling := true, pollIntervalMs := 10000 }
  | .subComplete => s
  | .pollTick => if s.polling then { s with triggers := s.triggers + 1 } else s

/-- The three mirror collections together. -/
structure World where
  profiles : ProfilesStore
  donations : DonationsStore
  products : ProductsStore
deriving DecidableEq

/-- The environment of one pass: the fetch outcomes of the three entity
queries, the blob fetch outcomes by hash, and the store failure oracle. -/
structure PassEnv where
  profilesFetch : FetchOutcome (Option (List LedgerProfile))
  donationsFetch : FetchOutcome (Option (List LedgerDonation))
  productsFetch : FetchOutcome (Option (List LedgerProduct))
  blob : String → FetchOutcome (Option (List Nat))
  oracle : StoreOracle

/-- The body of one pass (lines 270-274): profiles, then donations, then
products; each sync swallows its own failures, so each runs regardless of
what happened to the others. -/
def runPass (e : PassEnv) (w : World) : World :=
  { profiles := syncProfiles e.profilesFetch e.oracle w.profiles
    donations := syncDonations e.donationsFetch e.oracle w.donations
    products := syncProducts e.productsFetch e.blob e.oracle w.products }

/-! ## Derived predicates -/

/-- The record with its stored preview file removed. -/
def eraseImage (r : PBProduct) : PBProduct := { r with image_preview := none }

/-- The FormData with its preview file entry removed. -/
def eraseImageF (f : ProductFields) : ProductFields := { f with image_preview := none }

/-- Two records that agree everywhere except possibly in the stored preview
file, and agree fully unless they carry the distinguished product id. -/
def pidRel (pid : String) (r r2 : PBProduct) : Prop :=
  eraseImage r = eraseImage r2 ∧ (r.product_id ≠ pid → r = r2)

/-- Two product stores that differ at most in the stored preview files of
records carrying the distinguished product id. -/
def storeRel (pid : String) (st st2 : ProductsStore) : Prop :=
  List.Forall₂ (pidRel pid) st.records st2.records ∧ st.nextId = st2.nextId


/-- Well-formedness of the products store: local record ids are pairwise
distinct and below the fresh-id counter. -/
def WF (st : ProductsStore) : Prop :=
  (st.records.map PBProduct.localId).Nodup ∧ ∀ r ∈ st.records, r.localId < st.nextId

/-- The mirror record carries exactly the ledger-derived fields of the
product: everything the FormData always appends, the preview file aside. -/
def coreMatch (r : PBProduct) (p : LedgerProduct) : Prop :=
  r.product_id = p.id ∧ r.owner = p.author ∧ r.chain_id = p.authorChainId ∧
  r.name = getVal p "name" ∧ r.description = getVal p "description" ∧
  r.price = parseFloat? (if p.price = "" then "0" else p.price) ∧
  r.file_name = getVal p "name" ∧
  r.image_preview_hash = getVal p "image_preview_hash" ∧
  r.file_hash = getVal p "data_blob_hash" ∧
  r.«type» = getVal p "type" ∧ r.category = getVal p "category" ∧
  r.order_form = p.orderForm.getD []

/-- The identity under which the donation mirror is keyed: from owner, to
owner, timestamp and parsed amount. -/
def donQuad (r : PBDonation) : String × String × String × ℚ :=
  (r.from_owner, r.to_owner, r.timestamp, r.amount)

/-- The quadruple of a ledger donation, with the amount string parsed the
way the sync parses it. -/
def ledgerQuad (d : LedgerDonation) : String × String × String × ℚ :=
  (d.«from», d.«to», d.timestamp, parseAmount d.amount)

/-- Number of donation mirror records with the given quadruple. -/
def quadCount (q : String × String × String × ℚ) (st : DonationsStore) : Nat :=
  (st.records.filter (fun r => donQuad r = q)).length

/-! ## Concrete fixtures for witnesses and counterexamples -/

/-- A concrete mirror product record. -/
def sampleProduct : PBProduct :=
  ⟨0, 0, "p1", "alice", "chain1", "Widget", "desc", some 5, "Widget", "", "",
   "digital", "tools", [], none⟩

/-- A concrete ledger product referencing a preview blob hash. -/
def sampleLedgerProduct : LedgerProduct :=
  ⟨"p1", "alice", "chain1", [⟨"name", "Widget"⟩, ⟨"image_preview_hash", "h1"⟩], "7", none⟩

/-- A concrete ledger profile for owner a. -/
def profA : LedgerProfile := ⟨"a", "chainA", "Alice", "bioA", []⟩

/-- A concrete ledger profile for owner b. -/
def profB : LedgerProfile := ⟨"b", "chainB", "Bob", "bioB", []⟩

/-- A concrete mirror profile record for owner a. -/
def pbProfA : PBProfile := ⟨0, "a", "chainA", "Alice", "bioA", []⟩

/-- A concrete ledger donation. -/
def donX : LedgerDonation := ⟨"d1", "a", "b", "5", "new", "t1", "s1"⟩

/-- A concrete mirror donation record matching the quadruple of donX but
with a different message. -/
def pbDonOld : PBDonation := ⟨0, "a", "b", 5, "old", "t1", "s1"⟩

/-- An oracle that fails exactly the profile create for owner a. -/
def oProfCreateA : StoreOracle := { noFail with profileCreateFails := fun ow => ow == "a" }

/-- An oracle that fails exactly the donation duplicate query for ledger id
d1. -/
def oDonListD1 : StoreOracle := { noFail with donationListFails := fun i => i == "d1" }

/-- A second concrete ledger donation: different ledger id and message, but
the same quadruple as pbDonOld once the trailing dot of the amount is
stripped. -/
def donX2 : LedgerDonation := ⟨"d2", "a", "b", "5.", "msg2", "t1", "s2"⟩

/-- Two concrete duplicate mirror records sharing the product id p1; dupB
is the more recently created. -/
def dupA : PBProduct :=
  ⟨10, 10, "p1", "a", "c", "old1", "d1", none, "old1", "", "", "", "", [], none⟩

/-- See dupA. -/
def dupB : PBProduct :=
  ⟨11, 12, "p1", "a", "c", "old2", "d2", none, "old2", "", "", "", "", [], none⟩

/-- A concrete ledger product whose preview blob fetch will fail. -/
def pBlobFail : LedgerProduct :=
  ⟨"pf", "a", "c", [⟨"name", "F"⟩, ⟨"image_preview_hash", "hf"⟩], "", none⟩

/-- The record produced by a product create: local id and creation stamp
from the counter, every other field from the FormData. -/
def freshProductRecord (pr : LedgerProduct) (img : Option (List Nat)) (n : Nat) : PBProduct :=
  ⟨n, n, pr.id, pr.author, pr.authorChainId, getVal pr "name", getVal pr "description",
   parseFloat? (if pr.price = "" then "0" else pr.price), getVal pr "name",
   getVal pr "image_preview_hash", getVal pr "data_blob_hash", getVal pr "type",
   getVal pr "category", pr.orderForm.getD [], img⟩

/-- The preview bytes fetched for a product that has no existing mirror
record: fetched whenever the product carries an image hash. -/
def firstPassImage (pr : LedgerProduct)
    (benv : String → FetchOutcome (Option (List Nat))) : Option (List Nat) :=
  if getVal pr "image_preview_hash" ≠ "" then
    dataBlobBytes (fetchGraphQL (benv (getVal pr "image_preview_hash")))
  else none

/-! ## Theorems -/

/-- Any of the three fetch failure modes yields an absent data payload. -/
theorem fetch_failure_no_data {α : Type} (f : FetchOutcome α)
    (h : (∃ m, f = .throws m) ∨
         (∃ s b, f = .http s b ∧ httpOk s = false) ∨
         (fetchGraphQL f).data? = none) :
    (fetchGraphQL f).data? = none := by
  rcases h with ⟨m, rfl⟩ | ⟨s, b, rfl, hs⟩ | h
  · rfl
  · simp [fetchGraphQL, hs]
  · exact h

/-- C1: in a product reconciliation pass whose ledger query failed — the
fetch threw, the HTTP status was non-success, or the response carried no
data payload — the store is left untouched, so no mirror record is deleted
and in particular the orphan cleanup does not run. -/
theorem C1_orphan_cleanup_fetch_gated
    (f : FetchOutcome (Option (List LedgerProduct)))
    (benv : String → FetchOutcome (Option (List Nat)))
    (o : StoreOracle) (st : ProductsStore)
    (h : (∃ m, f = .throws m) ∨
         (∃ s b, f = .http s b ∧ httpOk s = false) ∨
         (fetchGraphQL f).data? = none) :
    syncProducts f benv o st = st := by
  have hd := fetch_failure_no_data f h
  unfold syncProducts
  rw [hd]

/-- Witness for C1: a thrown fetch leaves a one-record mirror unchanged. -/
theorem C1_orphan_cleanup_fetch_gated_witness :
    syncProducts (.throws "ECONNREFUSED") (fun _ => .throws "x") noFail
      ⟨[sampleProduct], 1⟩ = ⟨[sampleProduct], 1⟩ :=
  C1_orphan_cleanup_fetch_gated _ _ _ _ (Or.inl ⟨"ECONNREFUSED", rfl⟩)

/-- C2: while a pass is running with no pending re-run queued, two triggers
in rapid succession both take the pending branch, leaving one pending flag
set and starting no new pass; when the running pass completes, exactly one
further pass is started and the flag is cleared. -/
theorem C2_at_most_one_queued_rerun (s : CoordState)
    (hrun : s.isSyncing = true) (hpend : s.pendingSync = false) :
    (performSyncEnter (performSyncEnter s)).pendingSync = true ∧
    (performSyncEnter (performSyncEnter s)).isSyncing = true ∧
    (performSyncEnter (performSyncEnter s)).started = s.started ∧
    (performSyncExit (performSyncEnter (performSyncEnter s))).started = s.started + 1 ∧
    (performSyncExit (performSyncEnter (performSyncEnter s))).pendingSync = false ∧
    (performSyncExit (performSyncEnter (performSyncEnter s))).isSyncing = true := by
  simp [performSyncEnter, performSyncExit, hrun, hpend]

/-- Witness for C2 at the concrete state (running, no pending, 3 passes). -/
theorem C2_at_most_one_queued_rerun_witness :
    (performSyncEnter (performSyncEnter ⟨true, false, 3⟩)).pendingSync = true ∧
    (performSyncEnter (performSyncEnter ⟨true, false, 3⟩)).isSyncing = true ∧
    (performSyncEnter (performSyncEnter (⟨true, false, 3⟩ : CoordState))).started = 3 ∧
    (performSyncExit (performSyncEnter (performSyncEnter ⟨true, false, 3⟩))).started = 3 + 1 ∧
    (performSyncExit (performSyncEnter (performSyncEnter ⟨true, false, 3⟩))).pendingSync = false ∧
    (performSyncExit (performSyncEnter (performSyncEnter ⟨true, false, 3⟩))).isSyncing = true :=
  C2_at_most_one_queued_rerun ⟨true, false, 3⟩ rfl rfl

/-- C3 counterexample: a 200 response carrying both a data payload and a
non-empty application-level error list is not treated as a failure — the
products sync proceeds and deletes the orphaned mirror record, so a diff
is applied in that pass, contrary to the claim. -/
theorem C3_counterexample :
    (fetchGraphQL (.http 200 ⟨some (some []), ["application error"]⟩ :
        FetchOutcome (Option (List LedgerProduct)))).errors = ["application error"] ∧
    (fetchGraphQL (.http 200 ⟨some (some []), ["application error"]⟩ :
        FetchOutcome (Option (List LedgerProduct)))).data? = some (some []) ∧
    syncProducts (.http 200 ⟨some (some []), ["application error"]⟩)
      (fun _ => .throws "x") noFail ⟨[sampleProduct], 1⟩ = ⟨[], 1⟩ := by
  refine ⟨rfl, rfl, ?_⟩
  decide

/-- C3 amended: a fetch is treated as failed exactly when the response
carries no data payload; a non-empty application-level error list that
arrives together with a data payload is only logged — each entity-type sync
applies the same diff as if the error list were empty, while a response
without data leaves the mirror untouched. -/
theorem C3_errors_logged_only_amended :
    (∀ (d : Option (List LedgerProfile)) errs o st,
        syncProfiles (.http 200 ⟨some d, errs⟩) o st =
          syncProfiles (.http 200 ⟨some d, []⟩) o st ∧
        syncProfiles (.http 200 ⟨none, errs⟩) o st = st) ∧
    (∀ (d : Option (List LedgerDonation)) errs o st,
        syncDonations (.http 200 ⟨some d, errs⟩) o st =
          syncDonations (.http 200 ⟨some d, []⟩) o st ∧
        syncDonations (.http 200 ⟨none, errs⟩) o st = st) ∧
    (∀ (d : Option (List LedgerProduct)) errs benv o st,
        syncProducts (.http 200 ⟨some d, errs⟩) benv o st =
          syncProducts (.http 200 ⟨some d, []⟩) benv o st ∧
        syncProducts (.http 200 ⟨none, errs⟩) benv o st = st) :=
  ⟨fun _ _ _ _ => ⟨rfl, rfl⟩, fun _ _ _ _ => ⟨rfl, rfl⟩, fun _ _ _ _ _ => ⟨rfl, rfl⟩⟩

/-- C9 counterexample: the claim that polling stops once a fresh subscribe
attempt succeeds is false — no listener transition ever turns the polling
flag off once set, the connected callback included. -/
theorem C9_counterexample :
    ¬ ∃ (s : ListenerState) (e : ListenerEvent),
        s.polling = true ∧ (listenerStep s e).polling = false := by
  rintro ⟨s, e, hp, hstep⟩
  cases e <;> simp [listenerStep, hp] at hstep

/-- C9 amended: when the notification subscription errors, the system
enters polling mode with a fixed 10000 ms interval whose every tick
triggers a reconciliation pass; polling then never stops — no later event,
a successful connection included, clears it, because the interval is never
cancelled and no resubscribe path exists. -/
theorem C9_polling_never_stops_amended (s : ListenerState) (e : ListenerEvent)
    (hp : s.polling = true) :
    (listenerStep s .subError).polling = true ∧
    (listenerStep s .subError).pollIntervalMs = 10000 ∧
    (listenerStep s .pollTick).triggers = s.triggers + 1 ∧
    (listenerStep s e).polling = true := by
  refine ⟨rfl, rfl, by simp [listenerStep, hp], ?_⟩
  cases e <;> simp [listenerStep, hp]

/-- Witness for the amended C9 at a concrete polling state and the
connected event. -/
theorem C9_polling_never_stops_amended_witness :
    (listenerStep ⟨true, 10000, 0⟩ .subError).polling = true ∧
    (listenerStep ⟨true, 10000, 0⟩ .subError).pollIntervalMs = 10000 ∧
    (listenerStep ⟨true, 10000, 0⟩ .pollTick).triggers = 0 + 1 ∧
    (listenerStep ⟨true, 10000, 0⟩ .connected).polling = true :=
  C9_polling_never_stops_amended ⟨true, 10000, 0⟩ .connected rfl

/-! ### Donation lemmas -/

/-- The existence filter matches exactly the records with the given
quadruple. -/
theorem donMatches_eq_quad (d : LedgerDonation) (amt : ℚ) (r : PBDonation) :
    donMatches d amt r = true ↔ donQuad r = (d.«from», d.«to», d.timestamp, amt) := by
  simp [donMatches, donQuad, Prod.ext_iff, and_assoc]

/-- Creating a donation record adds one to the count of its quadruple and
leaves other quadruple counts unchanged. -/
theorem quadCount_donCreate (q : String × String × String × ℚ)
    (d : LedgerDonation) (amt : ℚ) (st : DonationsStore) :
    quadCount q (donCreate st d amt) =
      quadCount q st + (if (d.«from», d.«to», d.timestamp, amt) = q then 1 else 0) := by
  simp only [quadCount, donCreate, List.filter_append, List.length_append]
  congr 1
  by_cases h : (d.«from», d.«to», d.timestamp, amt) = q
  · simp [donQuad, ← h, Prod.ext_iff]
  · simp only [if_neg h]
    simp [donQuad, Prod.ext_iff]
    intro h1 h2 h3 h4
    exact h (by simp [Prod.ext_iff, h1, h2, h3, h4])

/-- When no record matches the quadruple filter, the count of that
quadruple is zero. -/
theorem quadCount_eq_zero_of_not_any (d : LedgerDonation) (amt : ℚ) (st : DonationsStore)
    (h : st.records.any (donMatches d amt) = false) :
    quadCount (d.«from», d.«to», d.timestamp, amt) st = 0 := by
  simp only [quadCount, List.length_eq_zero, List.filter_eq_nil_iff, decide_eq_true_eq]
  intro r hr hq
  exact (List.any_eq_false.mp h r hr) ((donMatches_eq_quad d amt r).mpr hq)

/-- Through the donation loop a quadruple count of at most one is
preserved: a record is created only when its quadruple count is zero. -/
theorem syncDonationsLoop_quadCount_le (o : StoreOracle) (ds : List LedgerDonation)
    (q : String × String × String × ℚ) :
    ∀ st, quadCount q st ≤ 1 → quadCount q (syncDonationsLoop o ds st) ≤ 1 := by
  induction ds with
  | nil => intro st h; simpa [syncDonationsLoop] using h
  | cons d rest ih =>
    intro st h
    simp only [syncDonationsLoop]
    by_cases h1 : o.donationListFails d.id = true
    · rw [if_pos h1]; exact ih st h
    · rw [if_neg h1]
      by_cases h2 : st.records.any (donMatches d (parseAmount d.amount)) = true
      · rw [if_pos h2]; exact ih st h
      · rw [if_neg h2]
        by_cases h3 : o.donationCreateFails d.id = true
        · rw [if_pos h3]; exact ih st h
        · rw [if_neg h3]
          apply ih
          have h2f : st.records.any (donMatches d (parseAmount d.amount)) = false := by
            simpa using h2
          rw [quadCount_donCreate]
          by_cases hq : (d.«from», d.«to», d.timestamp, parseAmount d.amount) = q
          · rw [← hq, quadCount_eq_zero_of_not_any d _ st h2f]
            simp
          · simpa [hq] using h

/-- Through the donation loop the count of a quadruple that already has a
record never changes: no second record with that quadruple is ever
created, whatever the ledger ids of the fetched donations are. -/
theorem syncDonationsLoop_quadCount_frozen (o : StoreOracle) (ds : List LedgerDonation)
    (q : String × String × String × ℚ) :
    ∀ st, 1 ≤ quadCount q st → quadCount q (syncDonationsLoop o ds st) = quadCount q st := by
  induction ds with
  | nil => intro st _; simp [syncDonationsLoop]
  | cons d rest ih =>
    intro st h
    simp only [syncDonationsLoop]
    by_cases h1 : o.donationListFails d.id = true
    · rw [if_pos h1]; exact ih st h
    · rw [if_neg h1]
      by_cases h2 : st.records.any (donMatches d (parseAmount d.amount)) = true
      · rw [if_pos h2]; exact ih st h
      · rw [if_neg h2]
        by_cases h3 : o.donationCreateFails d.id = true
        · rw [if_pos h3]; exact ih st h
        · rw [if_neg h3]
          have h2f : st.records.any (donMatches d (parseAmount d.amount)) = false := by
            simpa using h2
          have hq : (d.«from», d.«to», d.timestamp, parseAmount d.amount) ≠ q := by
            intro hq
            have h0 := quadCount_eq_zero_of_not_any d (parseAmount d.amount) st h2f
            rw [hq] at h0
            omega
          have hc : quadCount q (donCreate st d (parseAmount d.amount)) = quadCount q st := by
            rw [quadCount_donCreate]; simp [hq]
          rw [ih _ (by rw [hc]; exact h), hc]

/-- The donation loop only appends records: the prior records are kept
unchanged, in order, at the front. -/
theorem syncDonationsLoop_append_only (o : StoreOracle) (ds : List LedgerDonation) :
    ∀ st, ∃ t, (syncDonationsLoop o ds st).records = st.records ++ t := by
  induction ds with
  | nil => intro st; exact ⟨[], by simp [syncDonationsLoop]⟩
  | cons d rest ih =>
    intro st
    simp only [syncDonationsLoop]
    by_cases h1 : o.donationListFails d.id = true
    · rw [if_pos h1]; exact ih st
    · rw [if_neg h1]
      by_cases h2 : st.records.any (donMatches d (parseAmount d.amount)) = true
      · rw [if_pos h2]; exact ih st
      · rw [if_neg h2]
        by_cases h3 : o.donationCreateFails d.id = true
        · rw [if_pos h3]; exact ih st
        · rw [if_neg h3]
          obtain ⟨t, ht⟩ := ih (donCreate st d (parseAmount d.amount))
          refine ⟨[⟨st.nextId, d.«from», d.«to», parseAmount d.amount, d.message,
            d.timestamp, d.sourceChainId⟩] ++ t, ?_⟩
          rw [ht]
          simp [donCreate]

/-- Concrete evaluation: the amount string 5-dot parses to 5. -/
theorem parseAmount_five_dot : parseAmount "5." = 5 := by
  simp +decide [parseAmount, stripTrailingDot, parseFloat?, natOfDigits, digVal,
    isDigitChar, List.dropWhile, List.takeWhile]

/-- Concrete evaluation: the amount string 5 parses to 5. -/
theorem parseAmount_five : parseAmount "5" = 5 := by
  simp +decide [parseAmount, stripTrailingDot, parseFloat?, natOfDigits, digVal,
    isDigitChar, List.dropWhile, List.takeWhile]

/-- C10: the donation mirror is keyed by the quadruple (from owner, to
owner, timestamp, parsed amount) and not by the ledger donation id: the
parsed amount is the amount string with one trailing dot removed and read
as a float, defaulting to 0 when unparseable; a donation pass preserves
at-most-one mirror record per quadruple, and the record count of a
quadruple that already has a mirror record never grows — so a ledger
donation whose quadruple matches an existing record is never created, even
when its ledger id differs (the mirror stores no ledger id at all). -/
theorem C10_donation_quadruple_key
    (f : FetchOutcome (Option (List LedgerDonation))) (o : StoreOracle)
    (st : DonationsStore) :
    (∀ s : String, parseAmount s = (parseFloat? (stripTrailingDot s)).getD 0) ∧
    ((∀ q, quadCount q st ≤ 1) → ∀ q, quadCount q (syncDonations f o st) ≤ 1) ∧
    (∀ d : LedgerDonation, 1 ≤ quadCount (ledgerQuad d) st →
      quadCount (ledgerQuad d) (syncDonations f o st) = quadCount (ledgerQuad d) st) := by
  refine ⟨fun _ => rfl, ?_, ?_⟩
  · intro h q
    unfold syncDonations
    rcases hf : (fetchGraphQL f).data? with _ | dl
    · exact h q
    · exact syncDonationsLoop_quadCount_le o (dl.getD []) q st (h q)
  · intro d h
    unfold syncDonations
    rcases hf : (fetchGraphQL f).data? with _ | dl
    · rfl
    · exact syncDonationsLoop_quadCount_frozen o (dl.getD []) (ledgerQuad d) st h

/-- Witness for C10: a mirror holding one record with quadruple
(a, b, t1, 5) is not extended by a ledger donation with a different id,
a different message and the amount written as 5 followed by a dot. -/
theorem C10_donation_quadruple_key_witness :
    quadCount (ledgerQuad donX2)
      (syncDonations (.http 200 ⟨some (some [donX2]), []⟩) noFail ⟨[pbDonOld], 1⟩) =
      quadCount (ledgerQuad donX2) ⟨[pbDonOld], 1⟩ ∧
    quadCount (ledgerQuad donX2)
      (syncDonations (.http 200 ⟨some (some [donX2]), []⟩) noFail ⟨[pbDonOld], 1⟩) ≤ 1 :=
  ⟨(C10_donation_quadruple_key _ noFail ⟨[pbDonOld], 1⟩).2.2 donX2
     (by simp [quadCount, ledgerQuad, donX2, donQuad, pbDonOld, parseAmount_five_dot]),
   (C10_donation_quadruple_key _ noFail ⟨[pbDonOld], 1⟩).2.1
     (fun q => List.length_filter_le _ _) (ledgerQuad donX2)⟩

/-! ### Profile lemmas -/

/-- Looking up the owner of the single stored record finds it. -/
theorem profFind_single (i : Nat) (ow cid nm bo : String) (so : List Social) (n : Nat) :
    profFind ⟨[⟨i, ow, cid, nm, bo, so⟩], n⟩ ow = some ⟨i, ow, cid, nm, bo, so⟩ := by
  simp [profFind]

/-- A profile update keeps the local id and the owner of every record. -/
theorem profUpdate_preserves (st : ProfilesStore) (i : Nat) (p : LedgerProfile)
    (r : PBProfile) (hr : r ∈ st.records) :
    ∃ r2 ∈ (profUpdate st i p).records, r2.localId = r.localId ∧ r2.owner = r.owner := by
  refine ⟨_, List.mem_map_of_mem _ hr, ?_⟩
  by_cases h : r.localId = i <;> simp [h]

/-- Equation: a failing lookup skips the record. -/
theorem syncProfilesLoop_cons_lookupFail (o : StoreOracle) (p : LedgerProfile)
    (rest : List LedgerProfile) (st : ProfilesStore)
    (h : o.profileLookupFails p.owner = true) :
    syncProfilesLoop o (p :: rest) st = syncProfilesLoop o rest st := by
  simp [syncProfilesLoop, h]

/-- Equation: a failing update on a found record skips the record. -/
theorem syncProfilesLoop_cons_updateFail (o : StoreOracle) (p : LedgerProfile)
    (rest : List LedgerProfile) (st : ProfilesStore) (e : PBProfile)
    (h1 : o.profileLookupFails p.owner = false) (hf : profFind st p.owner = some e)
    (h2 : o.profileUpdateFails p.owner = true) :
    syncProfilesLoop o (p :: rest) st = syncProfilesLoop o rest st := by
  simp [syncProfilesLoop, h1, hf, h2]

/-- Equation: a found record is updated in place. -/
theorem syncProfilesLoop_cons_update (o : StoreOracle) (p : LedgerProfile)
    (rest : List LedgerProfile) (st : ProfilesStore) (e : PBProfile)
    (h1 : o.profileLookupFails p.owner = false) (hf : profFind st p.owner = some e)
    (h2 : o.profileUpdateFails p.owner = false) :
    syncProfilesLoop o (p :: rest) st =
      syncProfilesLoop o rest (profUpdate st e.localId p) := by
  simp [syncProfilesLoop, h1, hf, h2]

/-- Equation: a failing create aborts the whole remaining profile loop. -/
theorem syncProfilesLoop_cons_createFail (o : StoreOracle) (p : LedgerProfile)
    (rest : List LedgerProfile) (st : ProfilesStore)
    (h1 : o.profileLookupFails p.owner = false) (hf : profFind st p.owner = none)
    (h3 : o.profileCreateFails p.owner = true) :
    syncProfilesLoop o (p :: rest) st = st := by
  simp [syncProfilesLoop, h1, hf, h3]

/-- Equation: a missing record is created. -/
theorem syncProfilesLoop_cons_create (o : StoreOracle) (p : LedgerProfile)
    (rest : List LedgerProfile) (st : ProfilesStore)
    (h1 : o.profileLookupFails p.owner = false) (hf : profFind st p.owner = none)
    (h3 : o.profileCreateFails p.owner = false) :
    syncProfilesLoop o (p :: rest) st = syncProfilesLoop o rest (profCreate st p) := by
  simp [syncProfilesLoop, h1, hf, h3]

/-- The profile loop never deletes: every stored record keeps a successor
with the same local id and owner, whatever the oracle does. -/
theorem syncProfilesLoop_no_delete (o : StoreOracle) (ds : List LedgerProfile) :
    ∀ st, ∀ r ∈ st.records, ∃ r2 ∈ (syncProfilesLoop o ds st).records,
      r2.localId = r.localId ∧ r2.owner = r.owner := by
  induction ds with
  | nil => intro st r hr; exact ⟨r, by simpa [syncProfilesLoop] using hr, rfl, rfl⟩
  | cons p rest ih =>
    intro st r hr
    by_cases h1 : o.profileLookupFails p.owner = true
    · rw [syncProfilesLoop_cons_lookupFail o p rest st h1]; exact ih st r hr
    · have h1f : o.profileLookupFails p.owner = false := by simpa using h1
      rcases hf : profFind st p.owner with _ | e
      · by_cases h3 : o.profileCreateFails p.owner = true
        · rw [syncProfilesLoop_cons_createFail o p rest st h1f hf h3]
          exact ⟨r, hr, rfl, rfl⟩
        · have h3f : o.profileCreateFails p.owner = false := by simpa using h3
          rw [syncProfilesLoop_cons_create o p rest st h1f hf h3f]
          exact ih _ r (by simp [profCreate, hr])
      · by_cases h2 : o.profileUpdateFails p.owner = true
        · rw [syncProfilesLoop_cons_updateFail o p rest st e h1f hf h2]; exact ih st r hr
        · have h2f : o.profileUpdateFails p.owner = false := by simpa using h2
          rw [syncProfilesLoop_cons_update o p rest st e h1f hf h2f]
          obtain ⟨r2, hr2, hid, how⟩ := profUpdate_preserves st e.localId p r hr
          obtain ⟨r3, hr3, hid3, how3⟩ := ih _ r2 hr2
          exact ⟨r3, hr3, hid3.trans hid, how3.trans how⟩

/-! ### Product store lemmas -/

/-- Sorting by descending creation stamp does not change membership. -/
theorem mem_sortByCreatedDesc {a : PBProduct} {l : List PBProduct} :
    a ∈ sortByCreatedDesc l ↔ a ∈ l := by
  simp [sortByCreatedDesc, List.mem_insertionSort]

/-- The head of the descending sort has a maximal creation stamp. -/
theorem sortByCreatedDesc_head_max {l : List PBProduct} {m : PBProduct} {t : List PBProduct}
    (h : sortByCreatedDesc l = m :: t) :
    ∀ x ∈ l, x.created_at ≤ m.created_at := by
  intro x hx
  have hs : List.Sorted createdDesc (m :: t) := by
    rw [← h]
    exact List.sorted_insertionSort createdDesc l
  have hx2 : x ∈ m :: t := by
    rw [← h, sortByCreatedDesc, List.mem_insertionSort]
    exact hx
  rcases List.mem_cons.mp hx2 with rfl | hx3
  · exact le_refl _
  · exact List.rel_of_sorted_cons hs x hx3

/-- The sorted duplicate list is a permutation of the filtered records. -/
theorem sortByCreatedDesc_perm (l : List PBProduct) :
    List.Perm (sortByCreatedDesc l) l :=
  List.perm_insertionSort createdDesc l

/-- Deleting by a local id that no P-record carries leaves the P-filter of
the list unchanged. -/
theorem filter_eraseLocal (P : PBProduct → Bool) (x : Nat) :
    ∀ l : List PBProduct, (∀ r ∈ l, P r = true → r.localId ≠ x) →
      (l.filter (fun r => r.localId ≠ x)).filter P = l.filter P := by
  intro l
  induction l with
  | nil => intro _; rfl
  | cons a t ih =>
    intro h
    by_cases hx : a.localId = x
    · have hPa : P a = false := by
        rcases hP : P a with _ | _
        · rfl
        · exact absurd hx (h a (by simp) hP)
      simp only [List.filter_cons]
      rw [if_neg (by simp [hx]), if_neg (by simp [hPa])]
      exact ih (fun r hr => h r (by simp [hr]))
    · simp only [List.filter_cons]
      rw [if_pos (by simp [hx])]
      simp only [List.filter_cons]
      rcases hP : P a with _ | _
      · rw [if_neg (by simp), if_neg (by simp)]
        exact ih (fun r hr => h r (by simp [hr]))
      · rw [if_pos (by simp), if_pos (by simp)]
        rw [ih (fun r hr => h r (by simp [hr]))]

/-- An update targeting a local id whose records are outside P, and whose
rewritten records stay outside P, leaves the P-filter unchanged. -/
theorem filter_map_update (P : PBProduct → Bool) (i : Nat) (f : ProductFields) :
    ∀ l : List PBProduct,
      (∀ r ∈ l, r.localId = i → (P r = false ∧ P (applyFields r f) = false)) →
      (l.map (fun r => if r.localId = i then applyFields r f else r)).filter P =
        l.filter P := by
  intro l
  induction l with
  | nil => intro _; rfl
  | cons a t ih =>
    intro h
    simp only [List.map_cons]
    by_cases hi : a.localId = i
    · obtain ⟨h1, h2⟩ := h a (by simp) hi
      rw [if_pos hi]
      simp only [List.filter_cons]
      rw [if_neg (by simp [h2]), if_neg (by simp [h1])]
      exact ih (fun r hr => h r (by simp [hr]))
    · rw [if_neg hi]
      simp only [List.filter_cons]
      rcases hP : P a with _ | _
      · rw [if_neg (by simp), if_neg (by simp)]
        exact ih (fun r hr => h r (by simp [hr]))
      · rw [if_pos (by simp), if_pos (by simp)]
        rw [ih (fun r hr => h r (by simp [hr]))]

/-- Appending a record outside P leaves the P-filter unchanged. -/
theorem filter_append_none (P : PBProduct → Bool) (l : List PBProduct) (x : PBProduct)
    (hx : P x = false) : (l ++ [x]).filter P = l.filter P := by
  simp [List.filter_append, hx]

/-- With never-failing deletes, the dedup delete loop removes exactly the
records whose local id appears in the delete list. -/
theorem dedupDeletes_records_eq (o : StoreOracle)
    (hdel : ∀ i, o.productDeleteFails i = false) :
    ∀ (ds : List PBProduct) (st : ProductsStore),
      (dedupDeletes o ds st).records =
        st.records.filter (fun r => ds.all (fun x => r.localId ≠ x.localId)) := by
  intro ds
  induction ds with
  | nil => intro st; simp [dedupDeletes]
  | cons x ds ih =>
    intro st
    simp only [dedupDeletes, hdel, Bool.false_eq_true, if_false]
    rw [ih]
    simp only [prodDelete, List.filter_filter]
    apply List.filter_congr
    intro r _
    simp [List.all_cons, Bool.and_comm]

/-- The records surviving the dedup delete loop are a sublist of the
original records, whatever the oracle does. -/
theorem dedupDeletes_sublist (o : StoreOracle) :
    ∀ (ds : List PBProduct) (st : ProductsStore),
      (dedupDeletes o ds st).records.Sublist st.records := by
  intro ds
  induction ds with
  | nil => intro st; simp [dedupDeletes]
  | cons x ds ih =>
    intro st
    simp only [dedupDeletes]
    by_cases hd : o.productDeleteFails x.localId = true
    · rw [if_pos hd]; exact ih st
    · rw [if_neg hd]
      exact (ih _).trans (List.filter_sublist _)

/-- The dedup delete loop never touches the fresh-id counter. -/
theorem dedupDeletes_nextId (o : StoreOracle) :
    ∀ (ds : List PBProduct) (st : ProductsStore),
      (dedupDeletes o ds st).nextId = st.nextId := by
  intro ds
  induction ds with
  | nil => intro st; rfl
  | cons x ds ih =>
    intro st
    simp only [dedupDeletes]
    by_cases hd : o.productDeleteFails x.localId = true
    · rw [if_pos hd]; exact ih st
    · rw [if_neg hd]; exact ih _

/-- A record not targeted by any dedup delete survives the loop. -/
theorem dedupDeletes_mem (o : StoreOracle) :
    ∀ (ds : List PBProduct) (st : ProductsStore) (e : PBProduct),
      e ∈ st.records → (∀ x ∈ ds, e.localId ≠ x.localId) →
      e ∈ (dedupDeletes o ds st).records := by
  intro ds
  induction ds with
  | nil => intro st e he _; simpa [dedupDeletes] using he
  | cons x ds ih =>
    intro st e he h
    simp only [dedupDeletes]
    by_cases hd : o.productDeleteFails x.localId = true
    · rw [if_pos hd]; exact ih st e he (fun y hy => h y (by simp [hy]))
    · rw [if_neg hd]
      refine ih _ e ?_ (fun y hy => h y (by simp [hy]))
      simp only [prodDelete, List.mem_filter]
      exact ⟨he, by simpa using h x (by simp)⟩

/-- Well-formedness survives a delete. -/
theorem WF_prodDelete {st : ProductsStore} (h : WF st) (i : Nat) : WF (prodDelete st i) := by
  obtain ⟨h1, h2⟩ := h
  refine ⟨List.Nodup.sublist (List.Sublist.map _ (List.filter_sublist _)) h1, ?_⟩
  intro r hr
  exact h2 r (List.mem_of_mem_filter hr)

/-- Well-formedness survives an update. -/
theorem WF_prodUpdate {st : ProductsStore} (h : WF st) (i : Nat) (f : ProductFields) :
    WF (prodUpdate st i f) := by
  obtain ⟨h1, h2⟩ := h
  have hmap : (st.records.map (fun r => if r.localId = i then applyFields r f else r)).map
      PBProduct.localId = st.records.map PBProduct.localId := by
    rw [List.map_map]
    apply List.map_congr_left
    intro r _
    by_cases hr : r.localId = i <;> simp [hr, applyFields]
  refine ⟨by rw [prodUpdate, hmap]; exact h1, ?_⟩
  intro r hr
  simp only [prodUpdate, List.mem_map] at hr
  obtain ⟨a, ha, rfl⟩ := hr
  have hlt := h2 a ha
  by_cases hai : a.localId = i
  · simp only [if_pos hai, prodUpdate]
    simpa [applyFields] using hlt
  · simp only [if_neg hai, prodUpdate]
    exact hlt

/-- Well-formedness survives a create. -/
theorem WF_prodCreate {st : ProductsStore} (h : WF st) (f : ProductFields) :
    WF (prodCreate st f) := by
  obtain ⟨h1, h2⟩ := h
  constructor
  · simp only [prodCreate, List.map_append, List.map_cons, List.map_nil]
    rw [List.nodup_append]
    refine ⟨h1, List.nodup_singleton _, ?_⟩
    intro a ha hb
    simp only [List.mem_singleton] at hb
    subst hb
    simp only [List.mem_map] at ha
    obtain ⟨r, hr, hra⟩ := ha
    exact absurd hra (Nat.ne_of_lt (h2 r hr))
  · intro r hr
    simp only [prodCreate, List.mem_append, List.mem_singleton] at hr
    rcases hr with hr | rfl
    · exact Nat.lt_succ_of_lt (h2 r hr)
    · exact Nat.lt_succ_self _

/-- Well-formedness survives the dedup delete loop. -/
theorem WF_dedupDeletes {st : ProductsStore} (h : WF st) (o : StoreOracle)
    (ds : List PBProduct) : WF (dedupDeletes o ds st) := by
  induction ds generalizing st with
  | nil => exact h
  | cons x ds ih =>
    simp only [dedupDeletes]
    by_cases hd : o.productDeleteFails x.localId = true
    · rw [if_pos hd]; exact ih h
    · rw [if_neg hd]; exact ih (WF_prodDelete h _)

/-- Well-formedness survives the dedup step. -/
theorem WF_dedupStep {st : ProductsStore} (h : WF st) (o : StoreOracle) (pid : String) :
    WF (dedupStep o st pid) := by
  unfold dedupStep
  by_cases hl : (dupsOf st pid).length > 1
  · rw [if_pos hl]; exact WF_dedupDeletes h o _
  · rw [if_neg hl]; exact h

/-- Well-formedness survives processing one product. -/
theorem WF_processProduct {st : ProductsStore}
    (benv : String → FetchOutcome (Option (List Nat))) (o : StoreOracle)
    (p : LedgerProduct) (h : WF st) : WF (processProduct benv o st p) := by
  unfold processProduct
  by_cases hl : o.productListFails p.id = true
  · rw [if_pos hl]; exact h
  · rw [if_neg hl]
    rcases hh : (dupsOf st p.id).head? with _ | e
    · simp only
      by_cases hc : o.productCreateFails p.id = true
      · simp [hh, hc, WF_dedupStep h]
      · simp [hh, hc, WF_prodCreate (WF_dedupStep h o p.id)]
    · simp only
      by_cases hu : o.productUpdateFails p.id = true
      · simp [hh, hu, WF_dedupStep h]
      · simp [hh, hu, WF_prodUpdate (WF_dedupStep h o p.id)]

/-- Equation: a failing duplicates query skips the record entirely. -/
theorem processProduct_eq_listFail (benv : String → FetchOutcome (Option (List Nat)))
    (o : StoreOracle) (st : ProductsStore) (p : LedgerProduct)
    (h : o.productListFails p.id = true) : processProduct benv o st p = st := by
  simp [processProduct, h]

/-- Equation: with an existing record, the step is the dedup deletes
followed by an update of the newest duplicate (or nothing if the update
fails). -/
theorem processProduct_eq_some (benv : String → FetchOutcome (Option (List Nat)))
    (o : StoreOracle) (st : ProductsStore) (p : LedgerProduct) (e : PBProduct)
    (hl : o.productListFails p.id = false) (hh : (dupsOf st p.id).head? = some e) :
    processProduct benv o st p =
      if o.productUpdateFails p.id = true then dedupStep o st p.id
      else prodUpdate (dedupStep o st p.id) e.localId
        (productFieldsOf p (imageStep benv (some e) (getVal p "image_preview_hash"))) := by
  simp [processProduct, hl, hh]

/-- Equation: with no existing record, the step is a create (or nothing if
the create fails). -/
theorem processProduct_eq_none (benv : String → FetchOutcome (Option (List Nat)))
    (o : StoreOracle) (st : ProductsStore) (p : LedgerProduct)
    (hl : o.productListFails p.id = false) (hh : (dupsOf st p.id).head? = none) :
    processProduct benv o st p =
      if o.productCreateFails p.id = true then dedupStep o st p.id
      else prodCreate (dedupStep o st p.id)
        (productFieldsOf p (imageStep benv none (getVal p "image_preview_hash"))) := by
  simp [processProduct, hl, hh]

/-- Deleting a list of records that all lie outside P leaves the P-filter
of a well-formed store unchanged. -/
theorem dedupDeletes_filter_P (o : StoreOracle) (P : PBProduct → Bool)
    (base : List PBProduct) (hbase : (base.map PBProduct.localId).Nodup) :
    ∀ (ds : List PBProduct) (st : ProductsStore),
      st.records.Sublist base →
      (∀ x ∈ ds, x ∈ base ∧ P x = false) →
      (dedupDeletes o ds st).records.filter P = st.records.filter P := by
  intro ds
  induction ds with
  | nil => intro st _ _; rfl
  | cons x ds ih =>
    intro st hsub hds
    simp only [dedupDeletes]
    by_cases hd : o.productDeleteFails x.localId = true
    · rw [if_pos hd]
      exact ih st hsub (fun y hy => hds y (by simp [hy]))
    · rw [if_neg hd]
      have hx := hds x (by simp)
      have hstep : (prodDelete st x.localId).records.filter P = st.records.filter P := by
        show (st.records.filter (fun r => r.localId ≠ x.localId)).filter P = _
        apply filter_eraseLocal
        intro r hr hPr hloc
        have heq : r = x := List.inj_on_of_nodup_map hbase (hsub.subset hr) hx.1 hloc
        rw [heq, hx.2] at hPr
        exact Bool.false_ne_true hPr
      have hsub2 : (prodDelete st x.localId).records.Sublist base :=
        (List.filter_sublist _).trans hsub
      exact (ih _ hsub2 (fun y hy => hds y (by simp [hy]))).trans hstep

/-- The dedup step keeps a sublist of the records. -/
theorem dedupStep_sublist (o : StoreOracle) (st : ProductsStore) (pid : String) :
    (dedupStep o st pid).records.Sublist st.records := by
  unfold dedupStep
  by_cases hlen : (dupsOf st pid).length > 1
  · rw [if_pos hlen]; exact dedupDeletes_sublist o _ st
  · rw [if_neg hlen]

/-- The dedup step for one product id leaves the filter of any predicate
that avoids that product id unchanged. -/
theorem dedupStep_filter_other (o : StoreOracle) (st : ProductsStore) (qid : String)
    (hWF : WF st) (P : PBProduct → Bool)
    (hP : ∀ r, P r = true → r.product_id ≠ qid) :
    (dedupStep o st qid).records.filter P = st.records.filter P := by
  unfold dedupStep
  by_cases hlen : (dupsOf st qid).length > 1
  · rw [if_pos hlen]
    apply dedupDeletes_filter_P o P st.records hWF.1 _ st (List.Sublist.refl _)
    intro x hx
    have hx2 : x ∈ dupsOf st qid := List.mem_of_mem_drop hx
    have hx3 := mem_sortByCreatedDesc.mp hx2
    rw [List.mem_filter] at hx3
    refine ⟨hx3.1, ?_⟩
    rcases hPx : P x with _ | _
    · rfl
    · exact absurd (by simpa using hx3.2) (hP x hPx)
  · rw [if_neg hlen]

/-- The head of the duplicate list is a stored record carrying the queried
product id. -/
theorem dupsOf_head_mem {st : ProductsStore} {pid : String} {e : PBProduct}
    (hh : (dupsOf st pid).head? = some e) :
    e ∈ st.records ∧ e.product_id = pid := by
  have h1 : e ∈ dupsOf st pid := List.mem_of_mem_head? (by simp [hh])
  have h2 := mem_sortByCreatedDesc.mp h1
  rw [List.mem_filter] at h2
  exact ⟨h2.1, by simpa using h2.2⟩

/-- Processing a product with a different id leaves the filter for this
product id unchanged (whatever the oracle does). -/
theorem processProduct_filter_other (benv : String → FetchOutcome (Option (List Nat)))
    (o : StoreOracle) (st : ProductsStore) (q : LedgerProduct) (pid : String)
    (hq : q.id ≠ pid) (hWF : WF st) :
    (processProduct benv o st q).records.filter (fun r => r.product_id = pid) =
      st.records.filter (fun r => r.product_id = pid) := by
  have hP : ∀ r : PBProduct, (decide (r.product_id = pid)) = true → r.product_id ≠ q.id := by
    intro r hr
    rw [decide_eq_true_eq] at hr
    rw [hr]
    exact fun h => hq h.symm
  by_cases hl : o.productListFails q.id = true
  · rw [processProduct_eq_listFail benv o st q hl]
  · have hlf : o.productListFails q.id = false := by simpa using hl
    have hded := dedupStep_filter_other o st q.id hWF _ hP
    rcases hh : (dupsOf st q.id).head? with _ | e
    · rw [processProduct_eq_none benv o st q hlf hh]
      by_cases hc : o.productCreateFails q.id = true
      · rw [if_pos hc]; exact hded
      · rw [if_neg hc]
        have hnew : (decide ((productFieldsOf q (imageStep benv none
            (getVal q "image_preview_hash"))).product_id = pid)) = false := by
          simp [productFieldsOf, hq]
        calc (prodCreate (dedupStep o st q.id) _).records.filter _
            = (dedupStep o st q.id).records.filter (fun r => r.product_id = pid) := by
              apply filter_append_none
              exact hnew
          _ = _ := hded
    · rw [processProduct_eq_some benv o st q e hlf hh]
      by_cases hu : o.productUpdateFails q.id = true
      · rw [if_pos hu]; exact hded
      · rw [if_neg hu]
        obtain ⟨hemem, hepid⟩ := dupsOf_head_mem hh
        have hupd : (prodUpdate (dedupStep o st q.id) e.localId
            (productFieldsOf q (imageStep benv (some e)
              (getVal q "image_preview_hash")))).records.filter
                (fun r => r.product_id = pid) =
            (dedupStep o st q.id).records.filter (fun r => r.product_id = pid) := by
          apply filter_map_update
          intro r hr hloc
          have heq : r = e := List.inj_on_of_nodup_map hWF.1
            ((dedupStep_sublist o st q.id).subset hr) hemem hloc
          constructor
          · rw [heq]
            simp [hepid, hq]
          · simp [applyFields, productFieldsOf, hq]
        exact hupd.trans hded

/-- A successful processing of a product leaves a mirror record carrying
exactly its ledger fields. -/
theorem processProduct_establishes (benv : String → FetchOutcome (Option (List Nat)))
    (o : StoreOracle) (st : ProductsStore) (p : LedgerProduct) (hWF : WF st)
    (hl : o.productListFails p.id = false) (hu : o.productUpdateFails p.id = false)
    (hc : o.productCreateFails p.id = false) :
    ∃ r ∈ (processProduct benv o st p).records, coreMatch r p := by
  rcases hh : (dupsOf st p.id).head? with _ | e
  · rw [processProduct_eq_none benv o st p hl hh, if_neg (by simp [hc])]
    refine ⟨freshProductRecord p (imageStep benv none (getVal p "image_preview_hash"))
      (dedupStep o st p.id).nextId, ?_, ?_⟩
    · apply List.mem_append_right
      exact List.mem_singleton.mpr rfl
    · exact ⟨rfl, rfl, rfl, rfl, rfl, rfl, rfl, rfl, rfl, rfl, rfl, rfl⟩
  · rw [processProduct_eq_some benv o st p e hl hh, if_neg (by simp [hu])]
    obtain ⟨hemem, hepid⟩ := dupsOf_head_mem hh
    have heD : e ∈ (dedupStep o st p.id).records := by
      unfold dedupStep
      by_cases hlen : (dupsOf st p.id).length > 1
      · rw [if_pos hlen]
        obtain ⟨tail, htail⟩ : ∃ t, dupsOf st p.id = e :: t := by
          cases hd : dupsOf st p.id with
          | nil => rw [hd] at hh; simp at hh
          | cons a t =>
            rw [hd] at hh
            simp only [List.head?_cons, Option.some.injEq] at hh
            exact ⟨t, by rw [hh]⟩
        have hnd : ((dupsOf st p.id).map PBProduct.localId).Nodup := by
          have hsub : (st.records.filter (fun r => r.product_id = p.id)).Sublist
              st.records := List.filter_sublist _
          have h1 : ((st.records.filter (fun r => r.product_id = p.id)).map
              PBProduct.localId).Nodup :=
            List.Nodup.sublist (List.Sublist.map _ hsub) hWF.1
          exact (List.Perm.nodup_iff ((sortByCreatedDesc_perm _).map _)).mpr h1
        rw [htail] at hnd ⊢
        simp only [List.map_cons, List.nodup_cons, List.drop_succ_cons, List.drop_zero] at hnd ⊢
        apply dedupDeletes_mem
        · exact hemem
        · intro x hx heq
          exact hnd.1 (heq ▸ List.mem_map_of_mem PBProduct.localId hx)
      · rw [if_neg hlen]; exact hemem
    refine ⟨applyFields e (productFieldsOf p (imageStep benv (some e)
      (getVal p "image_preview_hash"))), ?_, ?_⟩
    · have := List.mem_map_of_mem
        (fun r => if r.localId = e.localId then applyFields r
          (productFieldsOf p (imageStep benv (some e)
            (getVal p "image_preview_hash"))) else r) heD
      simpa [prodUpdate] using this
    · exact ⟨rfl, rfl, rfl, rfl, rfl, rfl, rfl, rfl, rfl, rfl, rfl, rfl⟩

/-- Well-formedness survives a whole product fold. -/
theorem WF_foldl_processProduct (benv : String → FetchOutcome (Option (List Nat)))
    (o : StoreOracle) :
    ∀ (l : List LedgerProduct) (st : ProductsStore), WF st →
      WF (List.foldl (processProduct benv o) st l) := by
  intro l
  induction l with
  | nil => intro st h; exact h
  | cons q l ih =>
    intro st h
    rw [List.foldl_cons]
    exact ih _ (WF_processProduct benv o q h)

/-- Folding products whose ids all differ from a given product id leaves
the filter for that id unchanged. -/
theorem foldl_processProduct_other (benv : String → FetchOutcome (Option (List Nat)))
    (o : StoreOracle) (pid : String) :
    ∀ (l : List LedgerProduct) (st : ProductsStore), WF st → (∀ q ∈ l, q.id ≠ pid) →
      (List.foldl (processProduct benv o) st l).records.filter
          (fun r => r.product_id = pid) =
        st.records.filter (fun r => r.product_id = pid) := by
  intro l
  induction l with
  | nil => intro st _ _; rfl
  | cons q l ih =>
    intro st hWF hq
    rw [List.foldl_cons,
      ih _ (WF_processProduct benv o q hWF) (fun x hx => hq x (by simp [hx]))]
    exact processProduct_filter_other benv o st q pid (hq q (by simp)) hWF

/-- Everything surviving the cleanup loop was already stored, and its local
id never matched a snapshot record outside the fetched id set (deletes
never failing). -/
theorem cleanupLoop_mem (o : StoreOracle) (ids : List String)
    (hdel : ∀ i, o.productDeleteFails i = false) :
    ∀ (snap : List PBProduct) (st : ProductsStore) (r : PBProduct),
      r ∈ (cleanupLoop o ids snap st).records →
      r ∈ st.records ∧
        (∀ x ∈ snap, x.localId = r.localId → ids.contains x.product_id = true) := by
  intro snap
  induction snap with
  | nil => intro st r hr; exact ⟨hr, by simp⟩
  | cons x snap ih =>
    intro st r hr
    simp only [cleanupLoop] at hr
    by_cases hc : ids.contains x.product_id = true
    · rw [if_pos hc] at hr
      obtain ⟨h1, h2⟩ := ih st r hr
      refine ⟨h1, ?_⟩
      intro y hy hl
      rcases List.mem_cons.mp hy with rfl | hy2
      · exact hc
      · exact h2 y hy2 hl
    · rw [if_neg hc, if_neg (by simp [hdel])] at hr
      obtain ⟨h1, h2⟩ := ih _ r hr
      simp only [prodDelete, List.mem_filter, decide_eq_true_eq] at h1
      refine ⟨h1.1, ?_⟩
      intro y hy hl
      rcases List.mem_cons.mp hy with rfl | hy2
      · exact absurd hl.symm h1.2
      · exact h2 y hy2 hl

/-- The cleanup loop leaves the filter of any predicate confined to the
fetched id set unchanged, on a well-formed store. -/
theorem cleanupLoop_filter_P (o : StoreOracle) (ids : List String) (P : PBProduct → Bool)
    (base : List PBProduct) (hbase : (base.map PBProduct.localId).Nodup)
    (hP : ∀ r ∈ base, P r = true → ids.contains r.product_id = true) :
    ∀ (snap : List PBProduct) (st : ProductsStore),
      st.records.Sublist base → (∀ x ∈ snap, x ∈ base) →
      (cleanupLoop o ids snap st).records.filter P = st.records.filter P := by
  intro snap
  induction snap with
  | nil => intro st _ _; rfl
  | cons x snap ih =>
    intro st hsub hsnap
    simp only [cleanupLoop]
    by_cases hc : ids.contains x.product_id = true
    · rw [if_pos hc]
      exact ih st hsub (fun y hy => hsnap y (by simp [hy]))
    · rw [if_neg hc]
      by_cases hd : o.productDeleteFails x.localId = true
      · rw [if_pos hd]
        exact ih st hsub (fun y hy => hsnap y (by simp [hy]))
      · rw [if_neg hd]
        have hstep : (prodDelete st x.localId).records.filter P = st.records.filter P := by
          show (st.records.filter (fun r => r.localId ≠ x.localId)).filter P = _
          apply filter_eraseLocal
          intro r hr hPr hloc
          have heq : r = x := List.inj_on_of_nodup_map hbase (hsub.subset hr)
            (hsnap x (by simp)) hloc
          rw [heq] at hPr
          exact hc (hP x (hsnap x (by simp)) hPr)
        have hsub2 : (prodDelete st x.localId).records.Sublist base :=
          (List.filter_sublist _).trans hsub
        exact (ih _ hsub2 (fun y hy => hsnap y (by simp [hy]))).trans hstep

/-- A successful products fetch runs the per-product fold followed by the
orphan cleanup against the fetched id set. -/
theorem syncProducts_eq (ps : List LedgerProduct)
    (benv : String → FetchOutcome (Option (List Nat))) (o : StoreOracle)
    (st : ProductsStore) (hlaf : o.productsListAllFails = false) :
    syncProducts (.http 200 ⟨some (some ps), []⟩) benv o st =
      cleanupLoop o (ps.map (fun p => p.id))
        (sortByCreatedDesc (List.foldl (processProduct benv o) st ps).records)
        (List.foldl (processProduct benv o) st ps) := by
  simp [syncProducts, fetchGraphQL, httpOk, hlaf]

/-! ### Idempotence -/

/-- The cleanup loop deletes nothing when every snapshot record has its
product id in the fetched id set. -/
theorem cleanupLoop_self_of_contains (o : StoreOracle) (ids : List String) :
    ∀ snap st, (∀ r ∈ snap, ids.contains r.product_id = true) →
      cleanupLoop o ids snap st = st := by
  intro snap
  induction snap with
  | nil => intro st _; rfl
  | cons r rest ih =>
    intro st h
    simp only [cleanupLoop]
    rw [if_pos (h r (by simp))]
    exact ih st (fun x hx => h x (by simp [hx]))

/-- Re-running the product step on a store holding exactly the record the
first pass created leaves the store unchanged: when the stored preview is
present the stored hash matches and nothing is refetched; when it is
absent the refetch yields the same bytes again; either way the update
rewrites every field with its current value. -/
theorem processProduct_single_self (benv : String → FetchOutcome (Option (List Nat)))
    (pr : LedgerProduct) (v : Option (List Nat))
    (hv : getVal pr "image_preview_hash" = "" ∨
      v = dataBlobBytes (fetchGraphQL (benv (getVal pr "image_preview_hash")))) :
    processProduct benv noFail ⟨[freshProductRecord pr v 0], 1⟩ pr =
      ⟨[freshProductRecord pr v 0], 1⟩ := by
  have hdups : dupsOf ⟨[freshProductRecord pr v 0], 1⟩ pr.id = [freshProductRecord pr v 0] := by
    simp [dupsOf, freshProductRecord, sortByCreatedDesc, List.insertionSort, List.orderedInsert]
  have hded : dedupStep noFail ⟨[freshProductRecord pr v 0], 1⟩ pr.id =
      ⟨[freshProductRecord pr v 0], 1⟩ := by
    simp [dedupStep, hdups]
  rcases hv with himg | hB
  · simp only [processProduct, hdups, hded, List.head?_cons]
    rw [himg]
    rfl
  · cases v with
    | some bs =>
      simp only [processProduct, hdups, hded, List.head?_cons]
      simp only [imageStep, freshProductRecord, Option.isSome_some, Bool.not_true,
        bne_self_eq_false, Bool.or_false, Bool.false_eq_true, if_false, ite_self]
      rfl
    | none =>
      simp only [processProduct, hdups, hded, List.head?_cons]
      simp only [imageStep, freshProductRecord, Option.isSome_none, Bool.not_false,
        Bool.true_or, if_true]
      rw [← hB]
      simp only [ite_self]
      rfl


/-- C8: for each of the three entity types, running a pass over a one-record
authoritative set against an empty mirror creates exactly one mirror record,
and running the identical pass again leaves the store — every field of the
record included — unchanged: the repeated application never creates a
duplicate. -/
theorem C8_idempotent_upsert :
    (∀ p : LedgerProfile,
      syncProfiles (.http 200 ⟨some (some [p]), []⟩) noFail
        (syncProfiles (.http 200 ⟨some (some [p]), []⟩) noFail ⟨[], 0⟩) =
        syncProfiles (.http 200 ⟨some (some [p]), []⟩) noFail ⟨[], 0⟩ ∧
      (syncProfiles (.http 200 ⟨some (some [p]), []⟩) noFail ⟨[], 0⟩).records.length = 1) ∧
    (∀ d : LedgerDonation,
      syncDonations (.http 200 ⟨some (some [d]), []⟩) noFail
        (syncDonations (.http 200 ⟨some (some [d]), []⟩) noFail ⟨[], 0⟩) =
        syncDonations (.http 200 ⟨some (some [d]), []⟩) noFail ⟨[], 0⟩ ∧
      (syncDonations (.http 200 ⟨some (some [d]), []⟩) noFail ⟨[], 0⟩).records.length = 1) ∧
    (∀ (pr : LedgerProduct) (benv : String → FetchOutcome (Option (List Nat))),
      syncProducts (.http 200 ⟨some (some [pr]), []⟩) benv noFail
        (syncProducts (.http 200 ⟨some (some [pr]), []⟩) benv noFail ⟨[], 0⟩) =
        syncProducts (.http 200 ⟨some (some [pr]), []⟩) benv noFail ⟨[], 0⟩ ∧
      (syncProducts (.http 200 ⟨some (some [pr]), []⟩) benv noFail ⟨[], 0⟩).records.length
        = 1) := by
  refine ⟨?_, ?_, ?_⟩
  · intro p
    have h1 : syncProfiles (.http 200 ⟨some (some [p]), []⟩) noFail ⟨[], 0⟩ =
        ⟨[⟨0, p.owner, p.chainId, p.name, p.bio, p.socials⟩], 1⟩ := rfl
    rw [h1]
    refine ⟨?_, rfl⟩
    show syncProfilesLoop noFail [p] ⟨[⟨0, p.owner, p.chainId, p.name, p.bio, p.socials⟩], 1⟩ =
      ⟨[⟨0, p.owner, p.chainId, p.name, p.bio, p.socials⟩], 1⟩
    simp only [syncProfilesLoop, noFail, profFind_single]
    rfl
  · intro d
    have h1 : syncDonations (.http 200 ⟨some (some [d]), []⟩) noFail ⟨[], 0⟩ =
        ⟨[⟨0, d.«from», d.«to», parseAmount d.amount, d.message, d.timestamp,
          d.sourceChainId⟩], 1⟩ := rfl
    rw [h1]
    refine ⟨?_, rfl⟩
    show syncDonationsLoop noFail [d]
        ⟨[⟨0, d.«from», d.«to», parseAmount d.amount, d.message, d.timestamp,
          d.sourceChainId⟩], 1⟩ = _
    have hm : donMatches d (parseAmount d.amount)
        ⟨0, d.«from», d.«to», parseAmount d.amount, d.message, d.timestamp,
          d.sourceChainId⟩ = true := by
      simp [donMatches]
    simp only [syncDonationsLoop, noFail, List.any_cons, List.any_nil, hm]
    rfl
  · intro pr benv
    have hv : getVal pr "image_preview_hash" = "" ∨
        firstPassImage pr benv =
          dataBlobBytes (fetchGraphQL (benv (getVal pr "image_preview_hash"))) := by
      by_cases himg : getVal pr "image_preview_hash" = ""
      · exact Or.inl himg
      · exact Or.inr (by simp [firstPassImage, himg])
    have hmem : ∀ r ∈ sortByCreatedDesc [freshProductRecord pr (firstPassImage pr benv) 0],
        ([pr.id] : List String).contains r.product_id = true := by
      intro r hr
      have hr2 : r = freshProductRecord pr (firstPassImage pr benv) 0 := by
        simpa [sortByCreatedDesc, List.mem_insertionSort] using hr
      simp [hr2, freshProductRecord]
    have h1 : syncProducts (.http 200 ⟨some (some [pr]), []⟩) benv noFail ⟨[], 0⟩ =
        ⟨[freshProductRecord pr (firstPassImage pr benv) 0], 1⟩ := by
      show cleanupLoop noFail [pr.id]
          (sortByCreatedDesc [freshProductRecord pr (firstPassImage pr benv) 0])
          ⟨[freshProductRecord pr (firstPassImage pr benv) 0], 1⟩ = _
      exact cleanupLoop_self_of_contains noFail [pr.id] _ _ hmem
    have hstep := processProduct_single_self benv pr (firstPassImage pr benv) hv
    have h2 : syncProducts (.http 200 ⟨some (some [pr]), []⟩) benv noFail
        ⟨[freshProductRecord pr (firstPassImage pr benv) 0], 1⟩ =
        ⟨[freshProductRecord pr (firstPassImage pr benv) 0], 1⟩ := by
      show cleanupLoop noFail [pr.id]
          (sortByCreatedDesc (processProduct benv noFail
            ⟨[freshProductRecord pr (firstPassImage pr benv) 0], 1⟩ pr).records)
          (processProduct benv noFail
            ⟨[freshProductRecord pr (firstPassImage pr benv) 0], 1⟩ pr) = _
      rw [hstep]
      exact cleanupLoop_self_of_contains noFail [pr.id] _ _ hmem
    rw [h1]
    exact ⟨h2, rfl⟩
/-! ### Failure containment (C7) and reconciliation scope (C4) -/

/-- C7 counterexample: with two profiles on the ledger and an empty mirror,
a store failure on the create of the first profile aborts the remaining
profile records of the pass — the second profile is not created although
the claim requires remaining records to still be processed.  (The failure
is still caught at entity level, so the process survives.) -/
theorem C7_counterexample :
    syncProfiles (.http 200 ⟨some (some [profA, profB]), []⟩) oProfCreateA ⟨[], 0⟩ =
      ⟨[], 0⟩ := by
  decide

/-- C7 amended: no exception terminates the coordinator — each entity sync
runs independently of the others, every donation or product record failure
skips only that record, a profile lookup or update failure skips only that
record, but a profile create failure aborts the remaining profile records
of that pass (caught at entity level); the finally block of performSync
always releases the lock, then starts at most one queued re-run. -/
theorem C7_failure_containment_amended :
    (∀ e w, runPass e w = ⟨syncProfiles e.profilesFetch e.oracle w.profiles,
        syncDonations e.donationsFetch e.oracle w.donations,
        syncProducts e.productsFetch e.blob e.oracle w.products⟩) ∧
    (∀ (o : StoreOracle) (d : LedgerDonation) rest st,
        (o.donationListFails d.id = true ∨ o.donationCreateFails d.id = true) →
        syncDonationsLoop o (d :: rest) st = syncDonationsLoop o rest st) ∧
    (∀ (benv : String → FetchOutcome (Option (List Nat))) (o : StoreOracle)
        (p : LedgerProduct) rest st, o.productListFails p.id = true →
        List.foldl (processProduct benv o) st (p :: rest) =
          List.foldl (processProduct benv o) st rest) ∧
    (∀ (benv : String → FetchOutcome (Option (List Nat))) (o : StoreOracle)
        (p : LedgerProduct) st, o.productCreateFails p.id = true →
        st.records.filter (fun r => r.product_id = p.id) = [] →
        processProduct benv o st p = st) ∧
    (∀ (o : StoreOracle) (p : LedgerProfile) rest st,
        o.profileLookupFails p.owner = true →
        syncProfilesLoop o (p :: rest) st = syncProfilesLoop o rest st) ∧
    (∀ (o : StoreOracle) (p : LedgerProfile) rest st e,
        o.profileLookupFails p.owner = false → profFind st p.owner = some e →
        o.profileUpdateFails p.owner = true →
        syncProfilesLoop o (p :: rest) st = syncProfilesLoop o rest st) ∧
    (∀ (o : StoreOracle) (p : LedgerProfile) rest st,
        o.profileLookupFails p.owner = false → profFind st p.owner = none →
        o.profileCreateFails p.owner = true →
        syncProfilesLoop o (p :: rest) st = st) ∧
    (∀ s : CoordState, performSyncExit s =
        if s.pendingSync then performSyncEnter ⟨false, false, s.started⟩
        else ⟨false, s.pendingSync, s.started⟩) := by
  refine ⟨fun e w => rfl, ?_, ?_, ?_, ?_, ?_, ?_, ?_⟩
  · intro o d rest st h
    simp only [syncDonationsLoop]
    by_cases h1 : o.donationListFails d.id = true
    · rw [if_pos h1]
    · rw [if_neg h1]
      by_cases h2 : st.records.any (donMatches d (parseAmount d.amount)) = true
      · rw [if_pos h2]
      · rcases h with h | h
        · exact absurd h h1
        · rw [if_neg h2, if_pos h]
  · intro benv o p rest st h
    simp [List.foldl_cons, processProduct, h]
  · intro benv o p st hcf hnone
    by_cases hl : o.productListFails p.id = true
    · simp [processProduct, hl]
    · simp [processProduct, dupsOf, dedupStep, hl, hnone, sortByCreatedDesc, hcf]
  · exact syncProfilesLoop_cons_lookupFail
  · exact syncProfilesLoop_cons_updateFail
  · exact syncProfilesLoop_cons_createFail
  · intro s
    unfold performSyncExit
    by_cases hp : s.pendingSync = true <;> simp [hp]

/-- Witness for the amended C7: concrete skipped donation, concrete aborted
profile pass, concrete lock release with a queued re-run. -/
theorem C7_failure_containment_amended_witness :
    syncDonationsLoop oDonListD1 [donX] ⟨[], 0⟩ = syncDonationsLoop oDonListD1 [] ⟨[], 0⟩ ∧
    syncProfilesLoop oProfCreateA [profA, profB] ⟨[], 0⟩ = ⟨[], 0⟩ ∧
    performSyncExit ⟨true, true, 7⟩ = performSyncEnter ⟨false, false, 7⟩ := by
  refine ⟨C7_failure_containment_amended.2.1 oDonListD1 donX [] ⟨[], 0⟩ (Or.inl rfl),
    C7_failure_containment_amended.2.2.2.2.2.2.1 oProfCreateA profA [profB] ⟨[], 0⟩
      rfl rfl rfl, ?_⟩
  have h := C7_failure_containment_amended.2.2.2.2.2.2.2 ⟨true, true, 7⟩
  simpa using h

/-- C4 counterexample: the profile reconciler does not delete orphans — a
mirrored profile absent from the fetched set survives the pass — and the
donation reconciler does not update changed fields — a ledger donation
whose message changed but whose quadruple is unchanged leaves the mirror
record untouched. -/
theorem C4_counterexample :
    syncProfiles (.http 200 ⟨some (some []), []⟩) noFail ⟨[pbProfA], 1⟩ =
      ⟨[pbProfA], 1⟩ ∧
    syncDonations (.http 200 ⟨some (some [donX]), []⟩) noFail ⟨[pbDonOld], 1⟩ =
      ⟨[pbDonOld], 1⟩ ∧
    pbDonOld.message = "old" ∧ donX.message = "new" := by
  refine ⟨rfl, ?_, rfl, rfl⟩
  show syncDonationsLoop noFail [donX] ⟨[pbDonOld], 1⟩ = ⟨[pbDonOld], 1⟩
  have hm : donMatches donX (parseAmount donX.amount) pbDonOld = true := by
    simp [donMatches, donX, pbDonOld, parseAmount_five]
  simp [syncDonationsLoop, noFail, List.any_cons, List.any_nil, hm]

/-- C4 amended: only the product reconciler performs a full
fetch-diff-apply with orphan cleanup — after a successful products pass
(stores never failing) every surviving mirror record carries a fetched
product id, and every fetched product has a mirror record carrying exactly
its ledger fields; the profile reconciler creates and updates but never
deletes; the donation reconciler only appends new records and never
updates or deletes existing ones. -/
theorem C4_reconciler_scope_amended :
    (∀ (benv : String → FetchOutcome (Option (List Nat))) (ps : List LedgerProduct)
        (st : ProductsStore), WF st → (ps.map LedgerProduct.id).Nodup →
      (∀ r ∈ (syncProducts (.http 200 ⟨some (some ps), []⟩) benv noFail st).records,
          r.product_id ∈ ps.map LedgerProduct.id) ∧
      (∀ p ∈ ps,
        ∃ r ∈ (syncProducts (.http 200 ⟨some (some ps), []⟩) benv noFail st).records,
          coreMatch r p)) ∧
    (∀ f o st, ∀ r ∈ st.records, ∃ r2 ∈ (syncProfiles f o st).records,
        r2.localId = r.localId ∧ r2.owner = r.owner) ∧
    (∀ f o st, ∃ t, (syncDonations f o st).records = st.records ++ t) := by
  refine ⟨?_, ?_, ?_⟩
  · intro benv ps st hWF hnodup
    rw [syncProducts_eq ps benv noFail st rfl]
    have hWFN := WF_foldl_processProduct benv noFail ps st hWF
    constructor
    · intro r hr
      obtain ⟨h1, h2⟩ := cleanupLoop_mem noFail _ (fun _ => rfl) _ _ r hr
      have h3 := h2 r (mem_sortByCreatedDesc.mpr h1) rfl
      simpa using h3
    · intro p hp
      obtain ⟨l1, l2, rfl⟩ := List.append_of_mem hp
      have hnodup2 := hnodup
      rw [List.map_append, List.map_cons, List.nodup_append] at hnodup2
      have hl2 : ∀ q ∈ l2, q.id ≠ p.id := by
        intro q hq heq
        exact (List.nodup_cons.mp hnodup2.2.1).1 (heq ▸ List.mem_map_of_mem _ hq)
      have hWFMid := WF_foldl_processProduct benv noFail l1 st hWF
      have hWFp := WF_processProduct benv noFail p hWFMid
      obtain ⟨r, hrmem, hcm⟩ :=
        processProduct_establishes benv noFail _ p hWFMid rfl rfl rfl
      rw [List.foldl_append, List.foldl_cons]
      have hfold := foldl_processProduct_other benv noFail p.id l2 _ hWFp hl2
      have hrf : r ∈ (processProduct benv noFail
          (List.foldl (processProduct benv noFail) st l1) p).records.filter
            (fun x => x.product_id = p.id) :=
        List.mem_filter.mpr ⟨hrmem, by simp [hcm.1]⟩
      rw [← hfold] at hrf
      have hWFEnd := WF_foldl_processProduct benv noFail l2 _ hWFp
      have hP : ∀ rr ∈ (List.foldl (processProduct benv noFail)
          (processProduct benv noFail (List.foldl (processProduct benv noFail) st l1) p)
          l2).records,
          (decide (rr.product_id = p.id)) = true →
          ((l1 ++ p :: l2).map (fun x => x.id)).contains rr.product_id = true := by
        intro rr _ hrr
        rw [decide_eq_true_eq] at hrr
        rw [hrr]
        simp
      have hclean := cleanupLoop_filter_P noFail _ _ _ hWFEnd.1 hP _ _
        (List.Sublist.refl _) (fun x hx => mem_sortByCreatedDesc.mp hx)
      rw [← hclean] at hrf
      exact ⟨r, List.mem_of_mem_filter hrf, hcm⟩
  · intro f o st r hr
    unfold syncProfiles
    rcases (fetchGraphQL f).data? with _ | dl
    · exact ⟨r, hr, rfl, rfl⟩
    · exact syncProfilesLoop_no_delete o (dl.getD []) st r hr
  · intro f o st
    unfold syncDonations
    rcases (fetchGraphQL f).data? with _ | dl
    · exact ⟨[], by simp⟩
    · exact syncDonationsLoop_append_only o (dl.getD []) st

/-- Witness for the amended C4 at concrete stores: the pre-existing orphan
product is deleted (every survivor carries the fetched id), the fetched
product is mirrored with its ledger fields, the stored profile survives a
pass, and a donation pass only appends. -/
theorem C4_reconciler_scope_amended_witness :
    (∀ r ∈ (syncProducts (.http 200 ⟨some (some [sampleLedgerProduct]), []⟩)
        (fun _ => FetchOutcome.throws "x") noFail ⟨[sampleProduct], 1⟩).records,
        r.product_id ∈ [sampleLedgerProduct].map LedgerProduct.id) ∧
    (∃ r ∈ (syncProducts (.http 200 ⟨some (some [sampleLedgerProduct]), []⟩)
        (fun _ => FetchOutcome.throws "x") noFail ⟨[sampleProduct], 1⟩).records,
        coreMatch r sampleLedgerProduct) ∧
    (∃ r2 ∈ (syncProfiles (.throws "x") noFail ⟨[pbProfA], 1⟩).records,
        r2.localId = pbProfA.localId ∧ r2.owner = pbProfA.owner) ∧
    (∃ t, (syncDonations (.throws "x") noFail ⟨[pbDonOld], 1⟩).records = [pbDonOld] ++ t) := by
  have h := C4_reconciler_scope_amended
  have hWF : WF ⟨[sampleProduct], 1⟩ := ⟨by decide, by decide⟩
  exact ⟨(h.1 _ [sampleLedgerProduct] ⟨[sampleProduct], 1⟩ hWF (by decide)).1,
    (h.1 _ [sampleLedgerProduct] ⟨[sampleProduct], 1⟩ hWF (by decide)).2
      sampleLedgerProduct (by simp),
    h.2.1 (.throws "x") noFail ⟨[pbProfA], 1⟩ pbProfA (by simp),
    h.2.2 (.throws "x") noFail ⟨[pbDonOld], 1⟩⟩

/-! ### Dedup (C5) -/

/-- A filter whose predicate characterizes exactly one member of a
duplicate-free list yields that member alone. -/
theorem filter_eq_singleton (m : PBProduct) (P : PBProduct → Bool) :
    ∀ l : List PBProduct, l.Nodup → m ∈ l → (∀ r ∈ l, (P r = true ↔ r = m)) →
      l.filter P = [m] := by
  intro l
  induction l with
  | nil => intro _ hm; simp at hm
  | cons a t ih =>
    intro hnd hm hchar
    obtain ⟨hat, hndt⟩ := List.nodup_cons.mp hnd
    rcases List.mem_cons.mp hm with rfl | hmt
    · simp only [List.filter_cons]
      rw [if_pos (by simp [(hchar m (by simp)).mpr rfl])]
      have ht : t.filter P = [] := by
        rw [List.filter_eq_nil_iff]
        intro r hr hPr
        exact hat (((hchar r (by simp [hr])).mp hPr) ▸ hr)
      rw [ht]
    · have ha : P a = false := by
        rcases hPa : P a with _ | _
        · rfl
        · exact absurd ((hchar a (by simp)).mp hPa ▸ hmt) hat
      simp only [List.filter_cons]
      rw [if_neg (by simp [ha])]
      exact ih hndt hmt (fun r hr => hchar r (by simp [hr]))

/-- Updating the unique P-record of a list rewrites the P-filter to the
updated record alone. -/
theorem filter_map_singleton (m : PBProduct) (f : ProductFields) (P : PBProduct → Bool)
    (hPm : P (applyFields m f) = true) :
    ∀ l : List PBProduct, l.filter P = [m] →
      (∀ r ∈ l, r.localId = m.localId → r = m) →
      (l.map (fun r => if r.localId = m.localId then applyFields r f else r)).filter P =
        [applyFields m f] := by
  intro l
  induction l with
  | nil => intro hfil _; simp at hfil
  | cons a t ih =>
    intro hfil hloc
    rcases hPa : P a with _ | _
    · have hfil2 : t.filter P = [m] := by
        simpa [List.filter_cons, hPa] using hfil
      have hPmtrue : P m = true := by
        have hin : m ∈ t.filter P := by rw [hfil2]; simp
        exact (List.mem_filter.mp hin).2
      have ham : a ≠ m := by
        intro h
        rw [h, hPmtrue] at hPa
        exact absurd hPa (by decide)
      have hai : a.localId ≠ m.localId := fun h => ham (hloc a (by simp) h)
      simp only [List.map_cons, if_neg hai, List.filter_cons]
      rw [if_neg (by simp [hPa])]
      exact ih hfil2 (fun r hr hl => hloc r (by simp [hr]) hl)
    · have hsplit := hfil
      simp only [List.filter_cons, hPa, if_true] at hsplit
      rw [List.cons.injEq] at hsplit
      obtain ⟨ham, hfilt⟩ := hsplit
      have hPmtrue : P m = true := ham ▸ hPa
      simp only [List.map_cons]
      rw [ham, if_pos rfl]
      simp only [List.filter_cons]
      rw [if_pos (by simp [hPm])]
      have hnil : ((t.map (fun r => if r.localId = m.localId then applyFields r f
          else r)).filter P) = [] := by
        rw [List.filter_eq_nil_iff]
        intro rr hrr hPrr
        obtain ⟨b, hb, rfl⟩ := List.mem_map.mp hrr
        by_cases hbi : b.localId = m.localId
        · have hbm : b = m := hloc b (by simp [hb]) hbi
          have hmem : m ∈ t.filter P := List.mem_filter.mpr ⟨hbm ▸ hb, hPmtrue⟩
          rw [hfilt] at hmem
          simp at hmem
        · rw [if_neg hbi] at hPrr
          have hmem : b ∈ t.filter P := List.mem_filter.mpr ⟨hb, hPrr⟩
          rw [hfilt] at hmem
          simp at hmem
      rw [hnil]

/-- The duplicate list of a well-formed store has pairwise distinct local
ids. -/
theorem dupsOf_nodup_localIds (st : ProductsStore) (pid : String) (hWF : WF st) :
    ((dupsOf st pid).map PBProduct.localId).Nodup := by
  have h1 : ((st.records.filter (fun r => r.product_id = pid)).map PBProduct.localId).Nodup :=
    List.Nodup.sublist (List.Sublist.map _ (List.filter_sublist _)) hWF.1
  exact (List.Perm.nodup_iff ((sortByCreatedDesc_perm _).map _)).mpr h1

/-- When the store holds records for a fetched product, the successful step
keeps exactly one record with that id: the head of the newest-first
duplicate list, rewritten in place with the ledger fields. -/
theorem processProduct_dedup_result (benv : String → FetchOutcome (Option (List Nat)))
    (o : StoreOracle) (st : ProductsStore) (p : LedgerProduct) (m : PBProduct)
    (tail : List PBProduct)
    (hl : o.productListFails p.id = false) (hu : o.productUpdateFails p.id = false)
    (hdel : ∀ i, o.productDeleteFails i = false) (hWF : WF st)
    (hsort : dupsOf st p.id = m :: tail) :
    (processProduct benv o st p).records.filter (fun r => r.product_id = p.id) =
      [applyFields m (productFieldsOf p
        (imageStep benv (some m) (getVal p "image_preview_hash")))] := by
  have hh : (dupsOf st p.id).head? = some m := by rw [hsort]; rfl
  obtain ⟨hmmem, hmpid⟩ := dupsOf_head_mem hh
  have hnd := dupsOf_nodup_localIds st p.id hWF
  rw [hsort, List.map_cons, List.nodup_cons] at hnd
  rw [processProduct_eq_some benv o st p m hl hh, if_neg (by simp [hu])]
  have hfilD : (dedupStep o st p.id).records.filter (fun r => r.product_id = p.id) = [m] := by
    unfold dedupStep
    rcases tail with _ | ⟨x, xs⟩
    · rw [if_neg (by rw [hsort]; simp)]
      have hperm : List.Perm (st.records.filter (fun r => r.product_id = p.id)) [m] := by
        have h1 := sortByCreatedDesc_perm (st.records.filter (fun r => r.product_id = p.id))
        rw [show sortByCreatedDesc (st.records.filter (fun r => r.product_id = p.id)) =
          [m] from hsort] at h1
        exact h1.symm
      exact List.perm_singleton.mp hperm
    · rw [if_pos (by rw [hsort]; simp)]
      rw [show (dupsOf st p.id).drop 1 = x :: xs by rw [hsort]; rfl]
      rw [dedupDeletes_records_eq o hdel (x :: xs) st, List.filter_filter]
      apply filter_eq_singleton m _ st.records (List.Nodup.of_map _ hWF.1) hmmem
      intro r hr
      constructor
      · intro hcomb
        rw [Bool.and_eq_true] at hcomb
        have hrF : r ∈ st.records.filter (fun rr => rr.product_id = p.id) :=
          List.mem_filter.mpr ⟨hr, hcomb.1⟩
        have hrS : r ∈ m :: x :: xs := by
          rw [← hsort]
          exact mem_sortByCreatedDesc.mpr hrF
        rcases List.mem_cons.mp hrS with rfl | hrT
        · rfl
        · have hall := List.all_eq_true.mp hcomb.2 r hrT
          simp at hall
      · intro hrm
        subst hrm
        rw [Bool.and_eq_true]
        constructor
        · simpa using hmpid
        · rw [List.all_eq_true]
          intro x2 hx2
          have hne : r.localId ≠ x2.localId := by
            intro heq
            exact hnd.1 (heq ▸ List.mem_map_of_mem PBProduct.localId hx2)
          simpa using hne
  have hloc : ∀ r ∈ (dedupStep o st p.id).records, r.localId = m.localId → r = m := by
    intro r hr hlid
    exact List.inj_on_of_nodup_map hWF.1 ((dedupStep_sublist o st p.id).subset hr) hmmem hlid
  exact filter_map_singleton m _ _ (by simp [applyFields, productFieldsOf]) _ hfilD hloc

/-- C5: when the store holds more than one mirror record for the id of a
fetched product, one successful pass leaves exactly one record with that
id, and it is the most recently created of the pre-existing duplicates
(identified by its unchanged local id and creation stamp), rewritten with
the ledger fields. -/
theorem C5_dedup_keeps_most_recent (benv : String → FetchOutcome (Option (List Nat)))
    (ps : List LedgerProduct) (p : LedgerProduct) (st : ProductsStore)
    (hWF : WF st) (hp : p ∈ ps) (hnodup : (ps.map LedgerProduct.id).Nodup)
    (hlen : 2 ≤ (st.records.filter (fun r => r.product_id = p.id)).length)
    (hts : ((st.records.filter (fun r => r.product_id = p.id)).map
      PBProduct.created_at).Nodup) :
    ∃ m ∈ st.records.filter (fun r => r.product_id = p.id),
      (∀ x ∈ st.records.filter (fun r => r.product_id = p.id),
        x.created_at ≤ m.created_at) ∧
      (∀ x ∈ st.records.filter (fun r => r.product_id = p.id),
        x ≠ m → x.created_at < m.created_at) ∧
      ∃ r, (syncProducts (.http 200 ⟨some (some ps), []⟩) benv noFail st).records.filter
          (fun x => x.product_id = p.id) = [r] ∧
        r.localId = m.localId ∧ r.created_at = m.created_at ∧ coreMatch r p := by
  obtain ⟨l1, l2, rfl⟩ := List.append_of_mem hp
  have hnodup2 := hnodup
  rw [List.map_append, List.map_cons, List.nodup_append] at hnodup2
  have hl1 : ∀ q ∈ l1, q.id ≠ p.id := by
    intro q hq heq
    exact hnodup2.2.2 (List.mem_map_of_mem _ hq) (by simp [heq])
  have hl2 : ∀ q ∈ l2, q.id ≠ p.id := by
    intro q hq heq
    exact (List.nodup_cons.mp hnodup2.2.1).1 (heq ▸ List.mem_map_of_mem _ hq)
  obtain ⟨m, tail, hsortF⟩ : ∃ m tail,
      sortByCreatedDesc (st.records.filter (fun r => r.product_id = p.id)) = m :: tail := by
    cases hs : sortByCreatedDesc (st.records.filter (fun r => r.product_id = p.id)) with
    | nil =>
      have := (sortByCreatedDesc_perm
        (st.records.filter (fun r => r.product_id = p.id))).length_eq
      rw [hs] at this
      simp only [List.length_nil] at this
      omega
    | cons a t => exact ⟨a, t, rfl⟩
  have hmF : m ∈ st.records.filter (fun r => r.product_id = p.id) := by
    apply mem_sortByCreatedDesc.mp
    rw [hsortF]
    simp
  have hmax := sortByCreatedDesc_head_max hsortF
  refine ⟨m, hmF, hmax, ?_, ?_⟩
  · intro x hx hxm
    rcases Nat.lt_or_ge x.created_at m.created_at with h | h
    · exact h
    · have heq : x.created_at = m.created_at := Nat.le_antisymm (hmax x hx) h
      exact absurd (List.inj_on_of_nodup_map hts hx hmF heq) hxm
  · have hWFMid := WF_foldl_processProduct benv noFail l1 st hWF
    have hfilMid := foldl_processProduct_other benv noFail p.id l1 st hWF hl1
    have hsortMid : dupsOf (List.foldl (processProduct benv noFail) st l1) p.id =
        m :: tail := by
      unfold dupsOf
      rw [hfilMid]
      exact hsortF
    have hstep := processProduct_dedup_result benv noFail _ p m tail rfl rfl
      (fun _ => rfl) hWFMid hsortMid
    rw [syncProducts_eq _ benv noFail _ rfl, List.foldl_append, List.foldl_cons]
    have hWFp := WF_processProduct benv noFail p hWFMid
    have hWFEnd := WF_foldl_processProduct benv noFail l2 _ hWFp
    have hfoldEnd := foldl_processProduct_other benv noFail p.id l2 _ hWFp hl2
    have hP : ∀ rr ∈ (List.foldl (processProduct benv noFail)
        (processProduct benv noFail (List.foldl (processProduct benv noFail) st l1) p)
        l2).records,
        (decide (rr.product_id = p.id)) = true →
        ((l1 ++ p :: l2).map (fun x => x.id)).contains rr.product_id = true := by
      intro rr _ hrr
      rw [decide_eq_true_eq] at hrr
      rw [hrr]
      simp
    have hclean := cleanupLoop_filter_P noFail _ _ _ hWFEnd.1 hP _ _
      (List.Sublist.refl _) (fun x hx => mem_sortByCreatedDesc.mp hx)
    refine ⟨applyFields m (productFieldsOf p
      (imageStep benv (some m) (getVal p "image_preview_hash"))), ?_, rfl, rfl, ?_⟩
    · rw [hclean, hfoldEnd, hstep]
    · exact ⟨rfl, rfl, rfl, rfl, rfl, rfl, rfl, rfl, rfl, rfl, rfl, rfl⟩

/-- Witness for C5: two pre-existing duplicates for p1 with creation stamps
10 and 12; after the pass exactly one record with this id remains, carrying
local id 11 and stamp 12 — the younger duplicate. -/
theorem C5_dedup_keeps_most_recent_witness :
    ∃ m ∈ ([dupA, dupB] : List PBProduct).filter
        (fun r => r.product_id = sampleLedgerProduct.id),
      (∀ x ∈ ([dupA, dupB] : List PBProduct).filter
          (fun r => r.product_id = sampleLedgerProduct.id),
        x.created_at ≤ m.created_at) ∧
      (∀ x ∈ ([dupA, dupB] : List PBProduct).filter
          (fun r => r.product_id = sampleLedgerProduct.id),
        x ≠ m → x.created_at < m.created_at) ∧
      ∃ r, (syncProducts (.http 200 ⟨some (some [sampleLedgerProduct]), []⟩)
          (fun _ => FetchOutcome.throws "x") noFail ⟨[dupA, dupB], 13⟩).records.filter
          (fun x => x.product_id = sampleLedgerProduct.id) = [r] ∧
        r.localId = m.localId ∧ r.created_at = m.created_at ∧
        coreMatch r sampleLedgerProduct := by
  have hWF : WF ⟨[dupA, dupB], 13⟩ := ⟨by decide, by decide⟩
  exact C5_dedup_keeps_most_recent (fun _ => FetchOutcome.throws "x")
    [sampleLedgerProduct] sampleLedgerProduct ⟨[dupA, dupB], 13⟩ hWF (by simp)
    (by decide) (by decide) (by decide)

/-! ### Blob failure isolation (C6) -/

/-- The relation holds between a record and itself. -/
theorem pidRel_refl (pid : String) (r : PBProduct) : pidRel pid r r := ⟨rfl, fun _ => rfl⟩

/-- Related records share their local id. -/
theorem pidRel_localId {pid : String} {r r2 : PBProduct} (h : pidRel pid r r2) :
    r.localId = r2.localId := by
  simpa [eraseImage] using congrArg PBProduct.localId h.1

/-- Related records share their creation stamp. -/
theorem pidRel_created {pid : String} {r r2 : PBProduct} (h : pidRel pid r r2) :
    r.created_at = r2.created_at := by
  simpa [eraseImage] using congrArg PBProduct.created_at h.1

/-- Related records share their product id. -/
theorem pidRel_product_id {pid : String} {r r2 : PBProduct} (h : pidRel pid r r2) :
    r.product_id = r2.product_id := by
  simpa [eraseImage] using congrArg PBProduct.product_id h.1

/-- Applying erase-equal FormData to records equal up to the preview yields
records equal up to the preview. -/
theorem eraseImage_applyFields {r r2 : PBProduct} {f f2 : ProductFields}
    (hr : eraseImage r = eraseImage r2) (hf : eraseImageF f = eraseImageF f2) :
    eraseImage (applyFields r f) = eraseImage (applyFields r2 f2) := by
  cases r; cases r2; cases f; cases f2
  simp_all [eraseImage, eraseImageF, applyFields]

/-- A filter whose predicate is invariant under the relation maps related
lists to related lists. -/
theorem forall2_filter_rel {R : PBProduct → PBProduct → Prop} (P : PBProduct → Bool)
    (hP : ∀ a b, R a b → P a = P b) :
    ∀ {l l2 : List PBProduct}, List.Forall₂ R l l2 →
      List.Forall₂ R (l.filter P) (l2.filter P) := by
  intro l l2 h
  induction h with
  | nil => exact List.Forall₂.nil
  | @cons a b l l2 hab htail ih =>
    simp only [List.filter_cons]
    rcases hPb : P b with _ | _
    · rw [if_neg (by simp [hP a b hab, hPb]), if_neg (by simp [hPb])]
      exact ih
    · rw [if_pos (by simp [hP a b hab, hPb]), if_pos (by simp [hPb])]
      exact List.Forall₂.cons hab ih

/-- Filtering for a product id other than the distinguished one yields
equal lists on related lists. -/
theorem forall2_filter_eq_other {pid qid : String} (hq : qid ≠ pid) :
    ∀ {l l2 : List PBProduct}, List.Forall₂ (pidRel pid) l l2 →
      l.filter (fun r => r.product_id = qid) = l2.filter (fun r => r.product_id = qid) := by
  intro l l2 h
  induction h with
  | nil => rfl
  | @cons a b l l2 hab htail ih =>
    simp only [List.filter_cons]
    rcases hPb : (decide (b.product_id = qid)) with _ | _
    · rw [if_neg (by simp [pidRel_product_id hab, hPb]), if_neg (by simp [hPb])]
      exact ih
    · rw [if_pos (by simp [pidRel_product_id hab, hPb]), if_pos (by simp [hPb])]
      rw [decide_eq_true_eq] at hPb
      have hab2 : a = b := hab.2 (by rw [pidRel_product_id hab, hPb]; exact hq)
      rw [hab2, ih]

/-- Away from the distinguished product id, related lists filter to equal
lists. -/
theorem forall2_filter_ne_pid {pid : String} :
    ∀ {l l2 : List PBProduct}, List.Forall₂ (pidRel pid) l l2 →
      l.filter (fun r => !(decide (r.product_id = pid))) =
        l2.filter (fun r => !(decide (r.product_id = pid))) := by
  intro l l2 h
  induction h with
  | nil => rfl
  | @cons a b l l2 hab htail ih =>
    simp only [List.filter_cons]
    rcases hPb : (!(decide (b.product_id = pid))) with _ | _
    · rw [if_neg (by simp [pidRel_product_id hab, hPb]),
        if_neg (by simp [hPb])]
      exact ih
    · rw [if_pos (by simp [pidRel_product_id hab, hPb]),
        if_pos (by simp [hPb])]
      have hne : a.product_id ≠ pid := by
        rw [pidRel_product_id hab]
        simpa using hPb
      rw [hab.2 hne, ih]

/-- Inserting related records into related sorted lists keeps them
related. -/
theorem forall2_orderedInsert {pid : String} {a b : PBProduct} (hab : pidRel pid a b) :
    ∀ {l l2 : List PBProduct}, List.Forall₂ (pidRel pid) l l2 →
      List.Forall₂ (pidRel pid) (l.orderedInsert createdDesc a)
        (l2.orderedInsert createdDesc b) := by
  intro l l2 h
  induction h with
  | nil => exact List.Forall₂.cons hab List.Forall₂.nil
  | @cons x y l l2 hxy htail ih =>
    simp only [List.orderedInsert]
    by_cases hc : createdDesc a x
    · rw [if_pos hc, if_pos (by
        unfold createdDesc at hc ⊢
        rw [← pidRel_created hab, ← pidRel_created hxy]
        exact hc)]
      exact List.Forall₂.cons hab (List.Forall₂.cons hxy htail)
    · rw [if_neg hc, if_neg (by
        unfold createdDesc at hc ⊢
        rw [← pidRel_created hab, ← pidRel_created hxy]
        exact hc)]
      exact List.Forall₂.cons hxy ih

/-- Sorting keeps related lists related. -/
theorem forall2_sort {pid : String} :
    ∀ {l l2 : List PBProduct}, List.Forall₂ (pidRel pid) l l2 →
      List.Forall₂ (pidRel pid) (sortByCreatedDesc l) (sortByCreatedDesc l2) := by
  intro l l2 h
  induction h with
  | nil => exact List.Forall₂.nil
  | @cons a b l l2 hab htail ih =>
    exact forall2_orderedInsert hab ih

/-- The duplicate lists of related stores are related. -/
theorem storeRel_dupsOf {pid : String} {st st2 : ProductsStore}
    (h : storeRel pid st st2) (qid : String) :
    List.Forall₂ (pidRel pid) (dupsOf st qid) (dupsOf st2 qid) :=
  forall2_sort (forall2_filter_rel _
    (fun a b hab => by simp [pidRel_product_id hab]) h.1)

/-- For a product id other than the distinguished one, related stores have
equal duplicate lists. -/
theorem storeRel_dupsOf_eq {pid : String} {st st2 : ProductsStore}
    (h : storeRel pid st st2) (qid : String) (hq : qid ≠ pid) :
    dupsOf st qid = dupsOf st2 qid := by
  unfold dupsOf
  rw [forall2_filter_eq_other hq h.1]

/-- Deleting the same local id preserves the relation. -/
theorem storeRel_prodDelete {pid : String} {st st2 : ProductsStore}
    (h : storeRel pid st st2) (i : Nat) :
    storeRel pid (prodDelete st i) (prodDelete st2 i) :=
  ⟨forall2_filter_rel _ (fun a b hab => by simp [pidRel_localId hab]) h.1, h.2⟩

/-- Deleting related lists of duplicates preserves the relation. -/
theorem storeRel_dedupDeletes {pid : String} (o : StoreOracle) :
    ∀ {ds ds2 : List PBProduct}, List.Forall₂ (pidRel pid) ds ds2 →
      ∀ {st st2 : ProductsStore}, storeRel pid st st2 →
      storeRel pid (dedupDeletes o ds st) (dedupDeletes o ds2 st2) := by
  intro ds ds2 hds
  induction hds with
  | nil => intro st st2 h; exact h
  | @cons x y ds ds2 hxy htail ih =>
    intro st st2 h
    simp only [dedupDeletes]
    rw [pidRel_localId hxy]
    by_cases hd : o.productDeleteFails y.localId = true
    · rw [if_pos hd, if_pos hd]
      exact ih h
    · rw [if_neg hd, if_neg hd]
      exact ih (storeRel_prodDelete h _)

/-- The dedup step preserves the relation. -/
theorem storeRel_dedupStep {pid : String} {st st2 : ProductsStore} (o : StoreOracle)
    (h : storeRel pid st st2) (qid : String) :
    storeRel pid (dedupStep o st qid) (dedupStep o st2 qid) := by
  have hd := storeRel_dupsOf h qid
  have hlen := hd.length_eq
  unfold dedupStep
  by_cases hl : (dupsOf st qid).length > 1
  · rw [if_pos hl, if_pos (by rw [← hlen]; exact hl)]
    exact storeRel_dedupDeletes o (List.forall₂_drop 1 hd) h
  · rw [if_neg hl, if_neg (by rw [← hlen]; exact hl)]
    exact h

/-- List form: updating the same local id with erase-equal FormData
carrying the distinguished product id keeps lists related. -/
theorem forall2_map_update_pid {pid : String} (i : Nat) {f f2 : ProductFields}
    (hf : eraseImageF f = eraseImageF f2) (hfp : f.product_id = pid) :
    ∀ {l l2 : List PBProduct}, List.Forall₂ (pidRel pid) l l2 →
      List.Forall₂ (pidRel pid)
        (l.map (fun r => if r.localId = i then applyFields r f else r))
        (l2.map (fun r => if r.localId = i then applyFields r f2 else r)) := by
  intro l l2 h
  induction h with
  | nil => exact List.Forall₂.nil
  | @cons a b l l2 hab htail ih =>
    simp only [List.map_cons]
    by_cases hi : a.localId = i
    · rw [if_pos hi, if_pos (by rw [← pidRel_localId hab]; exact hi)]
      refine List.Forall₂.cons ⟨eraseImage_applyFields hab.1 hf, ?_⟩ ih
      intro hne
      exact absurd (show (applyFields a f).product_id = pid by
        simp [applyFields, hfp]) hne
    · rw [if_neg hi, if_neg (by rw [← pidRel_localId hab]; exact hi)]
      exact List.Forall₂.cons hab ih

/-- Updating the same local id with erase-equal FormData carrying the
distinguished product id preserves the relation. -/
theorem storeRel_prodUpdate_pid {pid : String} {st st2 : ProductsStore}
    (h : storeRel pid st st2) (i : Nat) {f f2 : ProductFields}
    (hf : eraseImageF f = eraseImageF f2) (hfp : f.product_id = pid) :
    storeRel pid (prodUpdate st i f) (prodUpdate st2 i f2) :=
  ⟨forall2_map_update_pid i hf hfp h.1, h.2⟩

/-- List form: updating the same local id with the same FormData keeps
lists related when no targeted record carries the distinguished id. -/
theorem forall2_map_update_other {pid : String} (i : Nat) (f : ProductFields) :
    ∀ {l l2 : List PBProduct}, List.Forall₂ (pidRel pid) l l2 →
      (∀ a ∈ l, a.localId = i → a.product_id ≠ pid) →
      List.Forall₂ (pidRel pid)
        (l.map (fun r => if r.localId = i then applyFields r f else r))
        (l2.map (fun r => if r.localId = i then applyFields r f else r)) := by
  intro l l2 h
  induction h with
  | nil => intro _; exact List.Forall₂.nil
  | @cons a b l l2 hab htail ih =>
    intro hloc
    simp only [List.map_cons]
    by_cases hi : a.localId = i
    · rw [if_pos hi, if_pos (by rw [← pidRel_localId hab]; exact hi)]
      have hab2 : a = b := hab.2 (hloc a (by simp) hi)
      rw [hab2]
      exact List.Forall₂.cons (pidRel_refl pid _)
        (ih (fun x hx => hloc x (by simp [hx])))
    · rw [if_neg hi, if_neg (by rw [← pidRel_localId hab]; exact hi)]
      exact List.Forall₂.cons hab
        (ih (fun x hx => hloc x (by simp [hx])))

/-- Updating the same local id with the same FormData preserves the
relation when no record with that local id carries the distinguished
product id. -/
theorem storeRel_prodUpdate_other {pid : String} {st st2 : ProductsStore}
    (h : storeRel pid st st2) (i : Nat) (f : ProductFields)
    (hloc : ∀ a ∈ st.records, a.localId = i → a.product_id ≠ pid) :
    storeRel pid (prodUpdate st i f) (prodUpdate st2 i f) :=
  ⟨forall2_map_update_other i f h.1 hloc, h.2⟩

/-- Creating records from erase-equal FormData preserves the relation when
the FormData carries the distinguished product id or is identical. -/
theorem storeRel_prodCreate {pid : String} {st st2 : ProductsStore}
    (h : storeRel pid st st2) {f f2 : ProductFields}
    (hf : eraseImageF f = eraseImageF f2) (hside : f.product_id = pid ∨ f = f2) :
    storeRel pid (prodCreate st f) (prodCreate st2 f2) := by
  refine ⟨?_, by simp [prodCreate, h.2]⟩
  simp only [prodCreate]
  rw [h.2]
  refine List.rel_append h.1 (List.Forall₂.cons ?_ List.Forall₂.nil)
  constructor
  · show eraseImage _ = eraseImage _
    cases f; cases f2
    simp_all [eraseImage, eraseImageF]
  · intro hne
    rcases hside with hfp | rfl
    · exact absurd (show _ = pid from hfp) hne
    · rfl

/-- The image sync decision depends on the blob environment only at the
image hash. -/
theorem imageStep_congr {benv benv2 : String → FetchOutcome (Option (List Nat))}
    (existing : Option PBProduct) (imageHash : String)
    (hag : benv2 imageHash = benv imageHash) :
    imageStep benv2 existing imageHash = imageStep benv existing imageHash := by
  simp [imageStep, hag]

/-- Processing the same fetched product against related stores under blob
environments that agree at its image hash (unless it carries the
distinguished id) preserves the relation. -/
theorem storeRel_processProduct {pid : String}
    (benv benv2 : String → FetchOutcome (Option (List Nat))) (o : StoreOracle)
    (q : LedgerProduct) {st st2 : ProductsStore}
    (h : storeRel pid st st2) (hWF : WF st)
    (hq : q.id = pid ∨ benv2 (getVal q "image_preview_hash") =
      benv (getVal q "image_preview_hash")) :
    storeRel pid (processProduct benv o st q) (processProduct benv2 o st2 q) := by
  by_cases hl : o.productListFails q.id = true
  · rw [processProduct_eq_listFail benv o st q hl,
      processProduct_eq_listFail benv2 o st2 q hl]
    exact h
  · have hlf : o.productListFails q.id = false := by simpa using hl
    have hD := storeRel_dedupStep o h q.id
    by_cases hqp : q.id = pid
    · have hdups := storeRel_dupsOf h q.id
      cases hdup : dupsOf st q.id with
      | nil =>
        have hdup2 : dupsOf st2 q.id = [] := by
          rw [hdup] at hdups
          exact List.forall₂_nil_left_iff.mp hdups
        rw [processProduct_eq_none benv o st q hlf (by rw [hdup]; rfl),
          processProduct_eq_none benv2 o st2 q hlf (by rw [hdup2]; rfl)]
        by_cases hc : o.productCreateFails q.id = true
        · rw [if_pos hc, if_pos hc]; exact hD
        · rw [if_neg hc, if_neg hc]
          exact storeRel_prodCreate hD rfl (Or.inl (by simp [productFieldsOf, hqp]))
      | cons e tail =>
        rw [hdup] at hdups
        obtain ⟨e2, t2, he, _, hdup2⟩ := List.forall₂_cons_left_iff.mp hdups
        rw [processProduct_eq_some benv o st q e hlf (by rw [hdup]; rfl),
          processProduct_eq_some benv2 o st2 q e2 hlf (by rw [hdup2]; rfl)]
        by_cases hu : o.productUpdateFails q.id = true
        · rw [if_pos hu, if_pos hu]; exact hD
        · rw [if_neg hu, if_neg hu]
          rw [show e2.localId = e.localId from (pidRel_localId he).symm]
          exact storeRel_prodUpdate_pid hD e.localId rfl
            (by simp [productFieldsOf, hqp])
    · have hag : benv2 (getVal q "image_preview_hash") =
          benv (getVal q "image_preview_hash") := hq.resolve_left hqp
      have hdupeq := storeRel_dupsOf_eq h q.id hqp
      cases hdup : dupsOf st q.id with
      | nil =>
        rw [processProduct_eq_none benv o st q hlf (by rw [hdup]; rfl),
          processProduct_eq_none benv2 o st2 q hlf (by rw [← hdupeq, hdup]; rfl)]
        by_cases hc : o.productCreateFails q.id = true
        · rw [if_pos hc, if_pos hc]; exact hD
        · rw [if_neg hc, if_neg hc]
          refine storeRel_prodCreate hD rfl (Or.inr ?_)
          rw [imageStep_congr none _ hag]
      | cons e tail =>
        rw [processProduct_eq_some benv o st q e hlf (by rw [hdup]; rfl),
          processProduct_eq_some benv2 o st2 q e hlf (by rw [← hdupeq, hdup]; rfl)]
        by_cases hu : o.productUpdateFails q.id = true
        · rw [if_pos hu, if_pos hu]; exact hD
        · rw [if_neg hu, if_neg hu]
          rw [imageStep_congr (some e) _ hag]
          apply storeRel_prodUpdate_other hD e.localId
          intro a ha hloc
          have hemem : e ∈ st.records ∧ e.product_id = q.id :=
            dupsOf_head_mem (by rw [hdup]; rfl)
          have heq : a = e := List.inj_on_of_nodup_map hWF.1
            ((dedupStep_sublist o st q.id).subset ha) hemem.1 hloc
          rw [heq, hemem.2]
          exact hqp

/-- Cleaning related snapshots against related stores preserves the
relation. -/
theorem storeRel_cleanupLoop {pid : String} (o : StoreOracle) (ids : List String) :
    ∀ {snap snap2 : List PBProduct}, List.Forall₂ (pidRel pid) snap snap2 →
      ∀ {st st2 : ProductsStore}, storeRel pid st st2 →
      storeRel pid (cleanupLoop o ids snap st) (cleanupLoop o ids snap2 st2) := by
  intro snap snap2 hs
  induction hs with
  | nil => intro st st2 h; exact h
  | @cons x y snap snap2 hxy htail ih =>
    intro st st2 h
    simp only [cleanupLoop]
    rw [pidRel_product_id hxy, pidRel_localId hxy]
    by_cases hc : ids.contains y.product_id = true
    · rw [if_pos hc, if_pos hc]; exact ih h
    · rw [if_neg hc, if_neg hc]
      by_cases hd : o.productDeleteFails y.localId = true
      · rw [if_pos hd, if_pos hd]; exact ih h
      · rw [if_neg hd, if_neg hd]
        exact ih (storeRel_prodDelete h _)

/-- Folding the same fetched products under blob environments agreeing away
from the distinguished image hash preserves the relation. -/
theorem storeRel_fold {pid : String}
    (benv benv2 : String → FetchOutcome (Option (List Nat))) (o : StoreOracle) :
    ∀ (ps : List LedgerProduct) {st st2 : ProductsStore}, storeRel pid st st2 → WF st →
      (∀ q ∈ ps, q.id = pid ∨ benv2 (getVal q "image_preview_hash") =
        benv (getVal q "image_preview_hash")) →
      storeRel pid (List.foldl (processProduct benv o) st ps)
        (List.foldl (processProduct benv2 o) st2 ps) := by
  intro ps
  induction ps with
  | nil => intro st st2 h _ _; exact h
  | cons q ps ih =>
    intro st st2 h hWF hqs
    rw [List.foldl_cons, List.foldl_cons]
    exact ih (storeRel_processProduct benv benv2 o q h hWF (hqs q (by simp)))
      (WF_processProduct benv o q hWF) (fun x hx => hqs x (by simp [hx]))

/-- A successful pass leaves a mirror record carrying the ledger fields of
every fetched product. -/
theorem syncProducts_establishes (benv : String → FetchOutcome (Option (List Nat)))
    (ps : List LedgerProduct) (q : LedgerProduct) (st : ProductsStore)
    (hWF : WF st) (hnodup : (ps.map LedgerProduct.id).Nodup) (hq : q ∈ ps) :
    ∃ r ∈ (syncProducts (.http 200 ⟨some (some ps), []⟩) benv noFail st).records,
      coreMatch r q := by
  obtain ⟨l1, l2, rfl⟩ := List.append_of_mem hq
  have hnodup2 := hnodup
  rw [List.map_append, List.map_cons, List.nodup_append] at hnodup2
  have hl2 : ∀ x ∈ l2, x.id ≠ q.id := by
    intro x hx heq
    exact (List.nodup_cons.mp hnodup2.2.1).1 (heq ▸ List.mem_map_of_mem _ hx)
  rw [syncProducts_eq _ benv noFail _ rfl, List.foldl_append, List.foldl_cons]
  have hWFMid := WF_foldl_processProduct benv noFail l1 st hWF
  have hWFp := WF_processProduct benv noFail q hWFMid
  obtain ⟨r, hrmem, hcm⟩ :=
    processProduct_establishes benv noFail _ q hWFMid rfl rfl rfl
  have hfold := foldl_processProduct_other benv noFail q.id l2 _ hWFp hl2
  have hrf : r ∈ (processProduct benv noFail
      (List.foldl (processProduct benv noFail) st l1) q).records.filter
        (fun x => x.product_id = q.id) :=
    List.mem_filter.mpr ⟨hrmem, by simp [hcm.1]⟩
  rw [← hfold] at hrf
  have hWFEnd := WF_foldl_processProduct benv noFail l2 _ hWFp
  have hP : ∀ rr ∈ (List.foldl (processProduct benv noFail)
      (processProduct benv noFail (List.foldl (processProduct benv noFail) st l1) q)
      l2).records,
      (decide (rr.product_id = q.id)) = true →
      ((l1 ++ q :: l2).map (fun x => x.id)).contains rr.product_id = true := by
    intro rr _ hrr
    rw [decide_eq_true_eq] at hrr
    rw [hrr]
    simp
  have hclean := cleanupLoop_filter_P noFail _ _ _ hWFEnd.1 hP _ _
    (List.Sublist.refl _) (fun x hx => mem_sortByCreatedDesc.mp hx)
  rw [← hclean] at hrf
  exact ⟨r, List.mem_of_mem_filter hrf, hcm⟩

/-- C6: when the preview blob fetch for one fetched product fails — the
blob query errors, the data or the blob is absent, or the bytes are empty,
all summarized by the usable bytes coming back empty — that product is
still upserted, without the preview; every other fetched product is still
upserted with its ledger fields; and the pass result on all records not
carrying the failing product id (the fresh-id counter included) is
identical to the result under any blob environment differing only at the
failing hash. -/
theorem C6_blob_failure_tolerance
    (benv benv2 : String → FetchOutcome (Option (List Nat)))
    (ps : List LedgerProduct) (p : LedgerProduct) (st : ProductsStore)
    (hWF : WF st) (hp : p ∈ ps) (hnodup : (ps.map LedgerProduct.id).Nodup)
    (hhash : getVal p "image_preview_hash" ≠ "")
    (hfail : dataBlobBytes (fetchGraphQL (benv (getVal p "image_preview_hash"))) = none)
    (hnopid : st.records.filter (fun r => r.product_id = p.id) = [])
    (hagree : ∀ h2, h2 ≠ getVal p "image_preview_hash" → benv2 h2 = benv h2)
    (hothers : ∀ q ∈ ps, q.id ≠ p.id →
      getVal q "image_preview_hash" ≠ getVal p "image_preview_hash") :
    (∃ r ∈ (syncProducts (.http 200 ⟨some (some ps), []⟩) benv noFail st).records,
        coreMatch r p ∧ r.image_preview = none) ∧
    (∀ q ∈ ps, q.id ≠ p.id →
      ∃ r ∈ (syncProducts (.http 200 ⟨some (some ps), []⟩) benv noFail st).records,
        coreMatch r q) ∧
    (syncProducts (.http 200 ⟨some (some ps), []⟩) benv noFail st).records.filter
        (fun r => !(decide (r.product_id = p.id))) =
      (syncProducts (.http 200 ⟨some (some ps), []⟩) benv2 noFail st).records.filter
        (fun r => !(decide (r.product_id = p.id))) ∧
    (syncProducts (.http 200 ⟨some (some ps), []⟩) benv noFail st).nextId =
      (syncProducts (.http 200 ⟨some (some ps), []⟩) benv2 noFail st).nextId := by
  refine ⟨?_, ?_, ?_, ?_⟩
  · obtain ⟨l1, l2, rfl⟩ := List.append_of_mem hp
    have hnodup2 := hnodup
    rw [List.map_append, List.map_cons, List.nodup_append] at hnodup2
    have hl1 : ∀ q ∈ l1, q.id ≠ p.id := by
      intro q hq heq
      exact hnodup2.2.2 (List.mem_map_of_mem _ hq) (by simp [heq])
    have hl2 : ∀ q ∈ l2, q.id ≠ p.id := by
      intro q hq heq
      exact (List.nodup_cons.mp hnodup2.2.1).1 (heq ▸ List.mem_map_of_mem _ hq)
    rw [syncProducts_eq _ benv noFail _ rfl, List.foldl_append, List.foldl_cons]
    have hWFMid := WF_foldl_processProduct benv noFail l1 st hWF
    have hfilMid0 : (List.foldl (processProduct benv noFail) st l1).records.filter
        (fun r => r.product_id = p.id) = [] := by
      rw [foldl_processProduct_other benv noFail p.id l1 st hWF hl1, hnopid]
    have hdupsMid : dupsOf (List.foldl (processProduct benv noFail) st l1) p.id = [] := by
      unfold dupsOf
      rw [hfilMid0]
      rfl
    have hDD : dedupStep noFail (List.foldl (processProduct benv noFail) st l1) p.id =
        List.foldl (processProduct benv noFail) st l1 := by
      simp [dedupStep, hdupsMid]
    have himgval : imageStep benv none (getVal p "image_preview_hash") = none := by
      simp [imageStep, hhash, hfail]
    have hstp : processProduct benv noFail (List.foldl (processProduct benv noFail) st l1) p
        = prodCreate (List.foldl (processProduct benv noFail) st l1)
            (productFieldsOf p none) := by
      rw [processProduct_eq_none benv noFail _ p rfl (by rw [hdupsMid]; rfl),
        if_neg (by simp [noFail]), hDD, himgval]
    have hfilstp : (processProduct benv noFail
        (List.foldl (processProduct benv noFail) st l1) p).records.filter
          (fun r => r.product_id = p.id) =
        [freshProductRecord p none
          (List.foldl (processProduct benv noFail) st l1).nextId] := by
      rw [hstp]
      show ((List.foldl (processProduct benv noFail) st l1).records ++
        [freshProductRecord p none
          (List.foldl (processProduct benv noFail) st l1).nextId]).filter _ = _
      rw [List.filter_append, hfilMid0]
      simp [freshProductRecord]
    have hWFp := WF_processProduct benv noFail p hWFMid
    have hWFEnd := WF_foldl_processProduct benv noFail l2 _ hWFp
    have hfold := foldl_processProduct_other benv noFail p.id l2 _ hWFp hl2
    have hP : ∀ rr ∈ (List.foldl (processProduct benv noFail)
        (processProduct benv noFail (List.foldl (processProduct benv noFail) st l1) p)
        l2).records,
        (decide (rr.product_id = p.id)) = true →
        ((l1 ++ p :: l2).map (fun x => x.id)).contains rr.product_id = true := by
      intro rr _ hrr
      rw [decide_eq_true_eq] at hrr
      rw [hrr]
      simp
    have hclean := cleanupLoop_filter_P noFail _ _ _ hWFEnd.1 hP _ _
      (List.Sublist.refl _) (fun x hx => mem_sortByCreatedDesc.mp hx)
    refine ⟨freshProductRecord p none
      (List.foldl (processProduct benv noFail) st l1).nextId, ?_, ?_, rfl⟩
    · apply List.mem_of_mem_filter (p := fun r => decide (r.product_id = p.id))
      rw [hclean, hfold, hfilstp]
      simp
    · exact ⟨rfl, rfl, rfl, rfl, rfl, rfl, rfl, rfl, rfl, rfl, rfl, rfl⟩
  · intro q hq _
    exact syncProducts_establishes benv ps q st hWF hnodup hq
  · rw [syncProducts_eq _ benv noFail _ rfl, syncProducts_eq _ benv2 noFail _ rfl]
    have hself : storeRel p.id st st :=
      ⟨List.forall₂_same.mpr (fun x _ => pidRel_refl p.id x), rfl⟩
    have hcond : ∀ q ∈ ps, q.id = p.id ∨ benv2 (getVal q "image_preview_hash") =
        benv (getVal q "image_preview_hash") := by
      intro q hq
      by_cases hqe : q.id = p.id
      · exact Or.inl hqe
      · exact Or.inr (hagree _ (hothers q hq hqe))
    have hfoldrel := storeRel_fold benv benv2 noFail ps hself hWF hcond
    have hfinal := storeRel_cleanupLoop noFail (ps.map (fun x => x.id))
      (forall2_sort hfoldrel.1) hfoldrel
    exact forall2_filter_ne_pid hfinal.1
  · rw [syncProducts_eq _ benv noFail _ rfl, syncProducts_eq _ benv2 noFail _ rfl]
    have hself : storeRel p.id st st :=
      ⟨List.forall₂_same.mpr (fun x _ => pidRel_refl p.id x), rfl⟩
    have hcond : ∀ q ∈ ps, q.id = p.id ∨ benv2 (getVal q "image_preview_hash") =
        benv (getVal q "image_preview_hash") := by
      intro q hq
      by_cases hqe : q.id = p.id
      · exact Or.inl hqe
      · exact Or.inr (hagree _ (hothers q hq hqe))
    have hfoldrel := storeRel_fold benv benv2 noFail ps hself hWF hcond
    have hfinal := storeRel_cleanupLoop noFail (ps.map (fun x => x.id))
      (forall2_sort hfoldrel.1) hfoldrel
    exact hfinal.2

/-- Witness for C6: the blob fetch for product pf (hash hf) throws, the
second environment differs only at hf; pf is still mirrored without a
preview, the other fetched product is mirrored with its fields, and all
non-pf records agree between the two runs. -/
theorem C6_blob_failure_tolerance_witness :
    (∃ r ∈ (syncProducts (.http 200 ⟨some (some [pBlobFail, sampleLedgerProduct]), []⟩)
        (fun _ => FetchOutcome.throws "x") noFail ⟨[], 0⟩).records,
        coreMatch r pBlobFail ∧ r.image_preview = none) ∧
    (∀ q ∈ [pBlobFail, sampleLedgerProduct], q.id ≠ pBlobFail.id →
      ∃ r ∈ (syncProducts (.http 200 ⟨some (some [pBlobFail, sampleLedgerProduct]), []⟩)
          (fun _ => FetchOutcome.throws "x") noFail ⟨[], 0⟩).records,
        coreMatch r q) ∧
    (syncProducts (.http 200 ⟨some (some [pBlobFail, sampleLedgerProduct]), []⟩)
        (fun _ => FetchOutcome.throws "x") noFail ⟨[], 0⟩).records.filter
        (fun r => !(decide (r.product_id = pBlobFail.id))) =
      (syncProducts (.http 200 ⟨some (some [pBlobFail, sampleLedgerProduct]), []⟩)
        (fun h => if h = "hf" then FetchOutcome.throws "x2" else FetchOutcome.throws "x")
        noFail ⟨[], 0⟩).records.filter
        (fun r => !(decide (r.product_id = pBlobFail.id))) ∧
    (syncProducts (.http 200 ⟨some (some [pBlobFail, sampleLedgerProduct]), []⟩)
        (fun _ => FetchOutcome.throws "x") noFail ⟨[], 0⟩).nextId =
      (syncProducts (.http 200 ⟨some (some [pBlobFail, sampleLedgerProduct]), []⟩)
        (fun h => if h = "hf" then FetchOutcome.throws "x2" else FetchOutcome.throws "x")
        noFail ⟨[], 0⟩).nextId :=
  C6_blob_failure_tolerance (fun _ => FetchOutcome.throws "x")
    (fun h => if h = "hf" then FetchOutcome.throws "x2" else FetchOutcome.throws "x")
    [pBlobFail, sampleLedgerProduct] pBlobFail ⟨[], 0⟩
    ⟨by decide, by decide⟩ (by simp) (by decide) (by decide) rfl rfl
    (by intro h2 hne; simp [show h2 ≠ "hf" by simpa [pBlobFail, getVal] using hne])
    (by decide)

end LineraIndexer
